import Mathlib

/-!
Verification development for the shared-memory transport plugin (`na_sm.c`)
of an RPC network-abstraction layer.  The C functions named in the claims are
shallowly embedded as executable Lean definitions over `Nat` and `List`.
64-bit machine words are modelled as `Nat` values kept below `2 ^ 64`; all
bit manipulations (`&`, `|`, `^`, `<<`) are the corresponding `Nat` bitwise
operations, which agree with the C semantics on that range.  Sequential
semantics is used throughout: an atomic compare-and-swap that is executed
without interference always succeeds, so a CAS-retry loop reduces to its
single-pass scan.
-/

namespace NaSm

/-- Return codes of the NA layer (the subset used by the shared-memory
plugin). -/
inductive NaReturn where
  | NA_SUCCESS
  | NA_TIMEOUT
  | NA_AGAIN
  | NA_BUSY
  | NA_OVERFLOW
  | NA_PERMISSION
  | NA_INVALID_ARG
  | NA_CANCELED
  | NA_NOMEM
  | NA_MSGSIZE
  deriving DecidableEq, Repr

open NaReturn

/-- Constant `NA_SM_NUM_BUFS` (na_sm.c:76). -/
def NA_SM_NUM_BUFS : Nat := 64

/-- Bit-scan loop of `na_sm_buf_reserve` (na_sm.c:2768-2796).  Starting at bit
position `i`, return the first `i` with `(available & (1 << i)) == (1 << i)`;
`fuel` bounds the remaining iterations (the C loop runs `while (i < 64)`).
In the sequential embedding the CAS on a found bit always succeeds, so the
found index is returned directly; `available == 0` ends the scan. -/
def bufScanLoop (available : Nat) : Nat → Nat → Option Nat
  | _, 0 => none
  | i, fuel + 1 =>
    if available = 0 then none
    else if available &&& (1 <<< i) = 1 <<< i then some i
    else bufScanLoop available (i + 1) fuel

/-- Function `na_sm_buf_reserve` (na_sm.c:2762-2799): reserve one buffer from
the 64-bit availability bitmask.  Returns the reserved index together with
the new mask value (`available & ~bits`), or `none` when the scan finds no
available bit (the C code returns `NA_AGAIN`). -/
def na_sm_buf_reserve (available : Nat) : Option (Nat × Nat) :=
  match bufScanLoop available 0 NA_SM_NUM_BUFS with
  | none => none
  | some i => some (i, available &&& ((2 ^ 64 - 1) ^^^ (1 <<< i)))

/-- Function `na_sm_buf_release` (na_sm.c:2802-2807):
`available |= 1 << index`. -/
def na_sm_buf_release (available index : Nat) : Nat :=
  available ||| (1 <<< index)

/-- Word-scan loop of `na_sm_queue_pair_reserve` (na_sm.c:2221-2257): the four
64-bit words of the 256-bit queue-pair bitmask are visited in order; a word
equal to zero is skipped (`if (!available) { j++; break; }`) and a non-zero
word is bit-scanned exactly like the copy-buffer mask.  Returns the word
index `j` and bit index `i` of the reserved slot. -/
def qpScanLoop : List Nat → Nat → Option (Nat × Nat)
  | [], _ => none
  | v :: rest, j =>
    match bufScanLoop v 0 64 with
    | some i => some (j, i)
    | none => qpScanLoop rest (j + 1)

/-- Function `na_sm_queue_pair_reserve` (na_sm.c:2216-2260): reserve a
queue-pair slot from the 256-bit bitmask stored as four 64-bit words.
Returns `*index = i + j * 64` and the updated word list, or `none` for
`NA_AGAIN`. -/
def na_sm_queue_pair_reserve (vals : List Nat) : Option (Nat × List Nat) :=
  match qpScanLoop vals 0 with
  | none => none
  | some (j, i) =>
    some (i + j * 64, vals.set j ((vals.getD j 0) &&& ((2 ^ 64 - 1) ^^^ (1 <<< i))))

/-- Function `na_sm_queue_pair_release` (na_sm.c:2263-2268):
`available.val[index / 64] |= 1LL << index % 64`. -/
def na_sm_queue_pair_release (vals : List Nat) (index : Nat) : List Nat :=
  vals.set (index / 64) ((vals.getD (index / 64) 0) ||| (1 <<< (index % 64)))

/-- One step against a reservation bitmask: a reserve attempt, or a release of
an index currently held. -/
inductive PoolOp where
  | reserve
  | release (index : Nat)

/-- State of the copy-buffer pool: the availability mask together with the
indices currently held by successful, not-yet-released reservations. -/
structure BufPool where
  mask : Nat
  held : List Nat

/-- Execute one pool operation on the copy-buffer pool.  A failed reserve
(`NA_AGAIN`) and a release of an index that is not held leave the state
unchanged. -/
def bufPoolStep (s : BufPool) : PoolOp → BufPool
  | PoolOp.reserve =>
    match na_sm_buf_reserve s.mask with
    | none => s
    | some (i, m) => ⟨m, i :: s.held⟩
  | PoolOp.release i =>
    if i ∈ s.held then ⟨na_sm_buf_release s.mask i, s.held.erase i⟩ else s

/-- Run a sequence of reserve/release steps from the freshly initialized pool
(all 64 buffers available, na_sm.c:1495). -/
def bufPoolExec (ops : List PoolOp) : BufPool :=
  ops.foldl bufPoolStep ⟨2 ^ 64 - 1, []⟩

/-- State of the queue-pair slot pool: the four 64-bit words of the 256-bit
availability bitmask together with the held slot indices. -/
structure QpPool where
  words : List Nat
  held : List Nat

/-- Execute one pool operation on the queue-pair pool. -/
def qpPoolStep (s : QpPool) : PoolOp → QpPool
  | PoolOp.reserve =>
    match na_sm_queue_pair_reserve s.words with
    | none => s
    | some (i, w) => ⟨w, i :: s.held⟩
  | PoolOp.release i =>
    if i ∈ s.held then ⟨na_sm_queue_pair_release s.words i, s.held.erase i⟩ else s

/-- Run a sequence of reserve/release steps from the freshly initialized
queue-pair bitmask (all four words all-ones, na_sm.c:1505-1507). -/
def qpPoolExec (ops : List PoolOp) : QpPool :=
  ops.foldl qpPoolStep ⟨[2 ^ 64 - 1, 2 ^ 64 - 1, 2 ^ 64 - 1, 2 ^ 64 - 1], []⟩

/-- Invariant of the copy-buffer pool: the mask fits in 64 bits, held indices
are pairwise distinct, and every held index is below 64 with its
availability bit cleared. -/
def BufPoolInv (s : BufPool) : Prop :=
  s.mask < 2 ^ 64 ∧ s.held.Nodup ∧
    ∀ i ∈ s.held, i < 64 ∧ s.mask.testBit i = false

/-- Invariant of the queue-pair pool: each word fits in 64 bits, held indices
are pairwise distinct, and every held index addresses an existing word with
its availability bit cleared. -/
def QpPoolInv (s : QpPool) : Prop :=
  (∀ w ∈ s.words, w < 2 ^ 64) ∧ s.held.Nodup ∧
    ∀ x ∈ s.held, x / 64 < s.words.length ∧
      (s.words.getD (x / 64) 0).testBit (x % 64) = false

/-- Operation status bit `NA_SM_OP_COMPLETED` (na_sm.c:106). -/
def NA_SM_OP_COMPLETED : Nat := 1

/-- Operation status bit `NA_SM_OP_CANCELED` (na_sm.c:107). -/
def NA_SM_OP_CANCELED : Nat := 2

/-- Operation status bit `NA_SM_OP_QUEUED` (na_sm.c:108). -/
def NA_SM_OP_QUEUED : Nat := 4

/-- 32-bit `x & ~bit`, as applied to status words
(e.g. `hg_atomic_and32(&status, ~NA_SM_OP_QUEUED)`). -/
def clearStatusBit (x bit : Nat) : Nat :=
  x &&& ((2 ^ 32 - 1) ^^^ bit)

/-- Callback types (`na_cb_type`) distinguished by the plugin. -/
inductive NaCbType where
  | NA_CB_RECV_UNEXPECTED
  | NA_CB_RECV_EXPECTED
  | NA_CB_SEND_UNEXPECTED
  | NA_CB_SEND_EXPECTED
  | NA_CB_PUT
  | NA_CB_GET
  deriving DecidableEq, Repr

/-- An operation id (`struct na_sm_op_id`), restricted to the fields the
cancel/complete path manipulates: an id used as the queue-membership key,
the status bitmask, the callback type, and the callback result field
`completion_data.callback_info.ret` (`none` until `na_sm_complete` writes
it). -/
structure SmOp where
  id : Nat
  status : Nat
  cbType : NaCbType
  cbRet : Option NaReturn
  deriving DecidableEq, Repr

/-- Function `na_sm_complete` (na_sm.c:3494-3514), status and callback-result
part: `status = hg_atomic_or32(&op->status, NA_SM_OP_COMPLETED)` returns the
old status, and the callback result is `NA_CANCELED` when the old status had
`NA_SM_OP_CANCELED` set, `NA_SUCCESS` otherwise. -/
def na_sm_complete (op : SmOp) : SmOp :=
  let old := op.status
  { op with
    status := old ||| NA_SM_OP_COMPLETED
    cbRet := some (if old &&& NA_SM_OP_CANCELED ≠ 0 then NaReturn.NA_CANCELED
                   else NaReturn.NA_SUCCESS) }

/-- Endpoint view used by `na_sm_cancel`: the operation being canceled plus
the three operation queues (as lists of op ids) that cancel may remove it
from. -/
structure CancelCtx where
  op : SmOp
  unexpectedOpQueue : List Nat
  expectedOpQueue : List Nat
  retryOpQueue : List Nat
  deriving DecidableEq, Repr

/-- Shared tail of `na_sm_cancel` (na_sm.c:5069-5086): if the op still has
`NA_SM_OP_QUEUED` set, remove it from the selected queue (`which` = 0 for
the unexpected op queue, 1 for the expected op queue, 2 for the retry op
queue), clear the bit and force-complete it; otherwise do nothing. -/
def cancelOnQueue (ctx : CancelCtx) (which : Nat) : NaReturn × CancelCtx :=
  if ctx.op.status &&& NA_SM_OP_QUEUED ≠ 0 then
    (NaReturn.NA_SUCCESS,
      { ctx with
        op := na_sm_complete
          { ctx.op with status := clearStatusBit ctx.op.status NA_SM_OP_QUEUED }
        unexpectedOpQueue :=
          if which = 0 then ctx.unexpectedOpQueue.erase ctx.op.id
          else ctx.unexpectedOpQueue
        expectedOpQueue :=
          if which = 1 then ctx.expectedOpQueue.erase ctx.op.id
          else ctx.expectedOpQueue
        retryOpQueue :=
          if which = 2 then ctx.retryOpQueue.erase ctx.op.id
          else ctx.retryOpQueue })
  else (NaReturn.NA_SUCCESS, ctx)

/-- Function `na_sm_cancel` (na_sm.c:5027-5090): atomically OR
`NA_SM_OP_CANCELED` into the status (the OR happens in every case); if the
old status already had `NA_SM_OP_COMPLETED`, exit; otherwise select the op
queue from the callback type (recv-unexpected → unexpected op queue,
recv-expected → expected op queue, send → retry op queue, put/get → no
queue) and dequeue/force-complete only if `NA_SM_OP_QUEUED` is still set. -/
def na_sm_cancel (ctx : CancelCtx) : NaReturn × CancelCtx :=
  let old := ctx.op.status
  let ctx1 := { ctx with op := { ctx.op with status := old ||| NA_SM_OP_CANCELED } }
  if old &&& NA_SM_OP_COMPLETED ≠ 0 then (NaReturn.NA_SUCCESS, ctx1)
  else
    match ctx1.op.cbType with
    | NaCbType.NA_CB_RECV_UNEXPECTED => cancelOnQueue ctx1 0
    | NaCbType.NA_CB_RECV_EXPECTED => cancelOnQueue ctx1 1
    | NaCbType.NA_CB_SEND_UNEXPECTED => cancelOnQueue ctx1 2
    | NaCbType.NA_CB_SEND_EXPECTED => cancelOnQueue ctx1 2
    | NaCbType.NA_CB_PUT => (NaReturn.NA_SUCCESS, ctx1)
    | NaCbType.NA_CB_GET => (NaReturn.NA_SUCCESS, ctx1)

/-- Endpoint state seen by `na_sm_endpoint_close`: the address poll list, the
four queues whose emptiness is checked, and the teardown targets.  The
queues hold opaque ids; `destroyedAddrs` records addresses destroyed by the
close path; OS-level destruction (`na_sm_addr_destroy`,
`na_sm_region_close`, `na_sm_sock_close`) is modelled as succeeding. -/
structure EndpointClose where
  pollAddrList : List Nat
  unexpectedMsgQueue : List Nat
  unexpectedOpQueue : List Nat
  expectedOpQueue : List Nat
  retryOpQueue : List Nat
  hasSourceAddr : Bool
  sourceHasRegion : Bool
  sourceRegionFreed : Bool
  sockClosed : Bool
  sourceAddrFreed : Bool
  destroyedAddrs : List Nat
  deriving DecidableEq, Repr

/-- Function `na_sm_endpoint_close` (na_sm.c:2083-2213).  A non-empty poll
addr list is drained first by destroying every remaining address
(na_sm.c:2096-2114); afterwards each of the four queues is checked for
emptiness and a non-empty queue aborts with `NA_BUSY` (na_sm.c:2118-2144)
before the source address, its shared region and the socket are torn down
(na_sm.c:2146-2182). -/
def na_sm_endpoint_close (ep : EndpointClose) : NaReturn × EndpointClose :=
  let ep := { ep with
    destroyedAddrs := ep.destroyedAddrs ++ ep.pollAddrList
    pollAddrList := [] }
  if ep.unexpectedMsgQueue ≠ [] then (NaReturn.NA_BUSY, ep)
  else if ep.unexpectedOpQueue ≠ [] then (NaReturn.NA_BUSY, ep)
  else if ep.expectedOpQueue ≠ [] then (NaReturn.NA_BUSY, ep)
  else if ep.retryOpQueue ≠ [] then (NaReturn.NA_BUSY, ep)
  else if ep.hasSourceAddr then
    (NaReturn.NA_SUCCESS,
      { ep with
        sourceRegionFreed := ep.sourceRegionFreed || ep.sourceHasRegion
        sockClosed := true
        sourceAddrFreed := true
        hasSourceAddr := false })
  else (NaReturn.NA_SUCCESS, ep)

/-- Loop of `na_sm_iov_get_index_offset` (na_sm.c:2855-2863): walk the
(base, length) segment list accumulating `next_offset`; break at the first
segment with `offset < next_offset`, returning its index and the offset
inside it (`new_iov_offset`, i.e. `offset` minus the preceding lengths).
If the loop completes without a break the start index stays 0 (the C code
only assigns it inside the break branch).  On the non-breaking path
`offset ≥ nextOff + l`, so the unsigned C subtraction never underflows and
`Nat` subtraction agrees with it. -/
def iovIndexOffsetLoop (offset : Nat) :
    List (Nat × Nat) → Nat → Nat → Nat → Nat × Nat
  | [], _, _, curOff => (0, curOff)
  | (_, l) :: rest, i, nextOff, curOff =>
    if offset < nextOff + l then (i, curOff)
    else iovIndexOffsetLoop offset rest (i + 1) (nextOff + l) (curOff - l)

/-- Function `na_sm_iov_get_index_offset` (na_sm.c:2846-2867). -/
def na_sm_iov_get_index_offset (iov : List (Nat × Nat)) (offset : Nat) :
    Nat × Nat :=
  iovIndexOffsetLoop offset iov 0 0 offset

/-- Loop of `na_sm_iov_get_count` (na_sm.c:2878-2882): count one output
segment per visited input segment while bytes remain. -/
def iovCountLoop : List (Nat × Nat) → Nat → Nat → Nat
  | [], _, i => i
  | (_, l) :: rest, r, i =>
    if r = 0 then i else iovCountLoop rest (r - min r l) (i + 1)

/-- Function `na_sm_iov_get_count` (na_sm.c:2870-2885): number of translated
segments covering `len` bytes starting at segment `iovStartIndex`, offset
`iovStartOffset` inside it; `remaining_len = len - MIN(len,
iov[start].len - start_offset)` and the loop counts subsequent segments
while `remaining_len > 0`. -/
def na_sm_iov_get_count (iov : List (Nat × Nat))
    (iovStartIndex iovStartOffset len : Nat) : Nat :=
  iovCountLoop (iov.drop (iovStartIndex + 1))
    (len - min len ((iov.getD iovStartIndex (0, 0)).2 - iovStartOffset)) 1

/-- Loop of `na_sm_iov_translate` (na_sm.c:2903-2911): emit one trimmed
segment per visited input segment while bytes remain and output capacity
(`i < new_iovcnt`) is left. -/
def iovTranslateLoop : List (Nat × Nat) → Nat → Nat → List (Nat × Nat)
  | [], _, _ => []
  | (b, l) :: rest, r, k =>
    if r = 0 ∨ k = 0 then []
    else (b, min r l) :: iovTranslateLoop rest (r - min r l) (k - 1)

/-- Function `na_sm_iov_translate` (na_sm.c:2888-2912): the first output
segment starts `iovStartOffset` bytes into segment `iovStartIndex` and has
length `MIN(len, iov[start].len - start_offset)`; subsequent segments are
emitted by the loop. -/
def na_sm_iov_translate (iov : List (Nat × Nat))
    (iovStartIndex iovStartOffset len newIovCnt : Nat) : List (Nat × Nat) :=
  let seg := iov.getD iovStartIndex (0, 0)
  let firstLen := min len (seg.2 - iovStartOffset)
  (seg.1 + iovStartOffset, firstLen) ::
    iovTranslateLoop (iov.drop (iovStartIndex + 1)) (len - firstLen)
      (newIovCnt - 1)

/-- Capacity-free variant of the translate loop, used to state its
correctness; with sufficient capacity `iovTranslateLoop` agrees with it. -/
def iovTranslateAll : List (Nat × Nat) → Nat → List (Nat × Nat)
  | [], _ => []
  | (b, l) :: rest, r =>
    if r = 0 then [] else (b, min r l) :: iovTranslateAll rest (r - min r l)

/-- Composition used by the put/get path (na_sm.c:4623-4673): find the start
index and in-segment offset for `offset`, count the needed output segments,
and translate. -/
def iovTranslatePath (iov : List (Nat × Nat)) (offset len : Nat) :
    List (Nat × Nat) :=
  let p := na_sm_iov_get_index_offset iov offset
  na_sm_iov_translate iov p.1 p.2 len (na_sm_iov_get_count iov p.1 p.2 len)

/-- Byte addresses covered by a (base, length) segment list, in order:
segment (b, l) contributes b, b+1, ..., b+l-1. -/
def iovBytes (iov : List (Nat × Nat)) : List Nat :=
  iov.flatMap fun s => List.range' s.1 s.2

/-- Total byte length of a segment list. -/
def iovLen (iov : List (Nat × Nat)) : Nat :=
  (iov.map Prod.snd).sum

/-- Memory access flag `NA_MEM_READ_ONLY`.  Modelled from the spec: the access
flags live in the NA public header (`na.h`), which is not under `src/`; the
spec names read-only / write-only / read-write access modes.  Only the
distinctness of the three values matters to the embedded code. -/
def NA_MEM_READ_ONLY : Nat := 1

/-- Memory access flag `NA_MEM_WRITE_ONLY` (modelled from the spec, see
`NA_MEM_READ_ONLY`). -/
def NA_MEM_WRITE_ONLY : Nat := 2

/-- Memory access flag `NA_MEM_READWRITE` (modelled from the spec, see
`NA_MEM_READ_ONLY`). -/
def NA_MEM_READWRITE : Nat := 3

/-- Memory handle `struct na_sm_mem_handle` (na_sm.c:289-292): the segment
list plus `struct na_sm_mem_desc_info` (na_sm.c:277-281) holding segment
count, access flags and total length. -/
structure MemHandle where
  iov : List (Nat × Nat)
  iovcnt : Nat
  flags : Nat
  len : Nat
  deriving DecidableEq, Repr

/-- State affected by `na_sm_put`/`na_sm_get` in the model: the op id, the
remote address reference count, whether the cross-process transfer primitive
was invoked, and the byte addresses written remotely (by put) or locally (by
get). -/
structure RmaState where
  op : SmOp
  addrRefCount : Nat
  transferAttempted : Bool
  remoteWritten : List Nat
  localWritten : List Nat
  deriving DecidableEq, Repr

/-- Iov selection of `na_sm_put`/`na_sm_get` (na_sm.c:4623-4673): the
index/offset search runs only for a positive offset, and the translation
only when `len` differs from the handle's total length — otherwise the
handle's full segment list is used unchanged. -/
def na_sm_iov_select (h : MemHandle) (offset len : Nat) : List (Nat × Nat) :=
  if len = h.len then h.iov
  else
    let p := if offset > 0 then na_sm_iov_get_index_offset h.iov offset else (0, 0)
    na_sm_iov_translate h.iov p.1 p.2 len (na_sm_iov_get_count h.iov p.1 p.2 len)

/-- Function `na_sm_put` (na_sm.c:4560-4742), sequential model.  The access
check on the remote handle (na_sm.c:4595-4606) runs before anything else:
a read-only remote handle yields `NA_PERMISSION`, an unrecognized flag
`NA_INVALID_ARG`, both leaving the state untouched.  On the success path
the op is populated, the address ref count incremented, both handles
translated, and the `process_vm_writev` transfer recorded as the remote
byte addresses written; completion is immediate.  OS failures (short
writes, EPERM) are not modelled. -/
def na_sm_put (lh rh : MemHandle) (loff roff len : Nat) (s : RmaState) :
    NaReturn × RmaState :=
  if rh.flags = NA_MEM_READ_ONLY then (NaReturn.NA_PERMISSION, s)
  else if rh.flags = NA_MEM_WRITE_ONLY ∨ rh.flags = NA_MEM_READWRITE then
    if s.op.status &&& NA_SM_OP_COMPLETED = 0 then (NaReturn.NA_BUSY, s)
    else
      let _liov := na_sm_iov_select lh loff len
      let riov := na_sm_iov_select rh roff len
      (NaReturn.NA_SUCCESS,
        { s with
          op := na_sm_complete
            { s.op with status := 0, cbType := NaCbType.NA_CB_PUT, cbRet := none }
          addrRefCount := s.addrRefCount + 1
          transferAttempted := true
          remoteWritten := s.remoteWritten ++ iovBytes riov })
  else (NaReturn.NA_INVALID_ARG, s)

/-- Function `na_sm_get` (na_sm.c:4745-4920), sequential model; symmetric to
`na_sm_put` with the access check inverted (na_sm.c:4781-4792): a
write-only remote handle yields `NA_PERMISSION`; the `process_vm_readv`
transfer writes the local translated byte addresses. -/
def na_sm_get (lh rh : MemHandle) (loff roff len : Nat) (s : RmaState) :
    NaReturn × RmaState :=
  if rh.flags = NA_MEM_WRITE_ONLY then (NaReturn.NA_PERMISSION, s)
  else if rh.flags = NA_MEM_READ_ONLY ∨ rh.flags = NA_MEM_READWRITE then
    if s.op.status &&& NA_SM_OP_COMPLETED = 0 then (NaReturn.NA_BUSY, s)
    else
      let liov := na_sm_iov_select lh loff len
      let _riov := na_sm_iov_select rh roff len
      (NaReturn.NA_SUCCESS,
        { s with
          op := na_sm_complete
            { s.op with status := 0, cbType := NaCbType.NA_CB_GET, cbRet := none }
          addrRefCount := s.addrRefCount + 1
          transferAttempted := true
          localWritten := s.localWritten ++ iovBytes liov })
  else (NaReturn.NA_INVALID_ARG, s)

/-- Wire elements produced by the memory-handle serializer: `NA_ENCODE` of
the descriptor info struct followed by `NA_ENCODE_ARRAY` of the iovec
array.  The `NA_ENCODE`/`NA_DECODE` macros live in a private header outside
`src/`.  Modelled from the spec: each encode/decode checks the remaining
buffer size against the object size (`NA_OVERFLOW` when too small), memcpys
the object, and advances the cursor; the buffer is modelled as the list of
objects written. -/
inductive WireField where
  | info (iovcnt len flags : Nat)
  | seg (base len : Nat)
  deriving DecidableEq, Repr

/-- Byte size of `struct na_sm_mem_desc_info` in the wire model. -/
def sizeofMemDescInfo : Nat := 24

/-- Byte size of `struct iovec` in the wire model. -/
def sizeofIovec : Nat := 16

/-- Function `na_sm_mem_handle_serialize` (na_sm.c:4487-4508): encode the
descriptor info, then `iovcnt` iovec entries. -/
def na_sm_mem_handle_serialize (h : MemHandle) (bufSize : Nat) :
    Except NaReturn (List WireField) :=
  if bufSize < sizeofMemDescInfo then Except.error NaReturn.NA_OVERFLOW
  else if bufSize - sizeofMemDescInfo < h.iovcnt * sizeofIovec then
    Except.error NaReturn.NA_OVERFLOW
  else
    Except.ok (WireField.info h.iovcnt h.len h.flags ::
      (h.iov.take h.iovcnt).map fun s => WireField.seg s.1 s.2)

/-- Decode `n` consecutive iovec entries (`NA_DECODE_ARRAY`). -/
def decodeSegs : Nat → List WireField → Option (List (Nat × Nat))
  | 0, _ => some []
  | n + 1, WireField.seg b l :: rest =>
    match decodeSegs n rest with
    | some segs => some ((b, l) :: segs)
    | none => none
  | _ + 1, _ => none

/-- Function `na_sm_mem_handle_deserialize` (na_sm.c:4511-4557): decode the
descriptor info, then `iovcnt` iovec entries into a fresh handle. -/
def na_sm_mem_handle_deserialize (w : List WireField) (bufSize : Nat) :
    Except NaReturn MemHandle :=
  if bufSize < sizeofMemDescInfo then Except.error NaReturn.NA_OVERFLOW
  else
    match w with
    | WireField.info iovcnt len flags :: rest =>
      if bufSize - sizeofMemDescInfo < iovcnt * sizeofIovec then
        Except.error NaReturn.NA_OVERFLOW
      else
        match decodeSegs iovcnt rest with
        | some segs => Except.ok ⟨segs, iovcnt, flags, len⟩
        | none => Except.error NaReturn.NA_INVALID_ARG
    | _ => Except.error NaReturn.NA_INVALID_ARG

/-- Address status bit `NA_SM_ADDR_RESERVED` (na_sm.c:88). -/
def NA_SM_ADDR_RESERVED : Nat := 1

/-- Address status bit `NA_SM_ADDR_CMD_PUSHED` (na_sm.c:89). -/
def NA_SM_ADDR_CMD_PUSHED : Nat := 2

/-- Address status bit `NA_SM_ADDR_RESOLVED` (na_sm.c:90). -/
def NA_SM_ADDR_RESOLVED : Nat := 4

/-- Address state for the resolution protocol of `na_sm_addr_resolve`
(na_sm.c:2417-2552): the status bitmask, whether the peer's region is
mapped, the reserved queue-pair slot, the two notification descriptors, and
event counters recording how many queue-pair reservations, command-queue
pushes and successful handshake sends this address has performed. -/
structure ResolveAddr where
  status : Nat
  regionOpen : Bool
  queuePairIdx : Nat
  txNotify : Bool
  rxNotify : Bool
  pollListed : Bool
  reserves : Nat
  pushes : Nat
  sends : Nat
  deriving DecidableEq, Repr

/-- Environment of one resolve attempt: whether the shared command queue has
room (na_sm.c:2459-2461) and whether the ancillary-data handshake send
succeeds (`na_sm_addr_event_send` returns `NA_AGAIN` otherwise,
na_sm.c:2495-2499). -/
structure ResolveEnv where
  cmdPushOk : Bool
  sendOk : Bool
  deriving DecidableEq, Repr

/-- Resolution state: the address plus the region's queue-pair availability
words. -/
structure ResolveState where
  addr : ResolveAddr
  regionWords : List Nat
  deriving DecidableEq, Repr

/-- Error-path unwind of `na_sm_addr_resolve` (na_sm.c:2515-2549): with the
region open, a set `NA_SM_ADDR_RESERVED` bit causes the queue pair to be
released, the bit cleared and the notify events destroyed; the region is
then closed. -/
def resolveErrorUnwind (s : ResolveState) : ResolveState :=
  let a := s.addr
  if a.status &&& NA_SM_ADDR_RESERVED ≠ 0 then
    { addr := { a with
        status := clearStatusBit a.status NA_SM_ADDR_RESERVED,
        txNotify := false, rxNotify := false, regionOpen := false }
      regionWords := na_sm_queue_pair_release s.regionWords a.queuePairIdx }
  else { s with addr := { a with regionOpen := false } }

/-- Final step of a successful `na_sm_addr_resolve` (na_sm.c:2505-2511): mark
`NA_SM_ADDR_RESOLVED` and add the address to the endpoint's poll list. -/
def finishResolve (s : ResolveState) : NaReturn × ResolveState :=
  (NaReturn.NA_SUCCESS,
    { s with addr := { s.addr with
        status := s.addr.status ||| NA_SM_ADDR_RESOLVED
        pollListed := true } })

/-- Event-creation and handshake-send step of `na_sm_addr_resolve`
(na_sm.c:2465-2503): only in blocking (poll-set) mode; the tx/rx events are
created when absent (OS success assumed), and the handshake datagram is
sent only when `NA_SM_ADDR_RESOLVED` is not yet set; a retryable send
failure returns `NA_AGAIN` directly, with no unwinding. -/
def resolveAfterPush (pollMode : Bool) (env : ResolveEnv) (s : ResolveState) :
    NaReturn × ResolveState :=
  if pollMode then
    let a := { s.addr with txNotify := true, rxNotify := true }
    if a.status &&& NA_SM_ADDR_RESOLVED = 0 then
      if env.sendOk then
        finishResolve { s with addr := { a with sends := a.sends + 1 } }
      else (NaReturn.NA_AGAIN, { s with addr := a })
    else finishResolve { s with addr := a }
  else finishResolve s

/-- Command-queue push step of `na_sm_addr_resolve` (na_sm.c:2447-2463): the
`NA_SM_RESERVED` command is pushed only when `NA_SM_ADDR_CMD_PUSHED` is not
yet set; a full command queue takes the error path with `NA_AGAIN`. -/
def resolveAfterReserve (pollMode : Bool) (env : ResolveEnv) (s : ResolveState) :
    NaReturn × ResolveState :=
  let a := s.addr
  if a.status &&& NA_SM_ADDR_CMD_PUSHED = 0 then
    if env.cmdPushOk then
      resolveAfterPush pollMode env
        { s with addr := { a with
            status := a.status ||| NA_SM_ADDR_CMD_PUSHED,
            pushes := a.pushes + 1 } }
    else (NaReturn.NA_AGAIN, resolveErrorUnwind s)
  else resolveAfterPush pollMode env s

/-- Function `na_sm_addr_resolve` (na_sm.c:2417-2552), sequential model: open
the region if needed, reserve a queue pair only when `NA_SM_ADDR_RESERVED`
is not yet set (an exhausted bitmask takes the error path with `NA_AGAIN`),
then push the command and send the handshake. -/
def na_sm_addr_resolve (pollMode : Bool) (env : ResolveEnv) (s : ResolveState) :
    NaReturn × ResolveState :=
  let a := if s.addr.regionOpen then s.addr else { s.addr with regionOpen := true }
  if a.status &&& NA_SM_ADDR_RESERVED = 0 then
    match na_sm_queue_pair_reserve s.regionWords with
    | none =>
      (NaReturn.NA_AGAIN,
        resolveErrorUnwind { addr := a, regionWords := s.regionWords })
    | some (idx, words') =>
      resolveAfterReserve pollMode env
        { addr := { a with
            status := a.status ||| NA_SM_ADDR_RESERVED,
            queuePairIdx := idx, reserves := a.reserves + 1 }
          regionWords := words' }
  else resolveAfterReserve pollMode env { addr := a, regionWords := s.regionWords }

/-- Call-site guard shared by `na_sm_msg_send_unexpected` (na_sm.c:4089),
`na_sm_msg_send_expected` (na_sm.c:4263) and `na_sm_process_retries`
(na_sm.c:3424): `na_sm_addr_resolve` is entered only when the address lacks
`NA_SM_ADDR_RESOLVED`.  The boolean records whether resolve was entered. -/
def resolveIfUnresolved (pollMode : Bool) (env : ResolveEnv) (s : ResolveState) :
    NaReturn × ResolveState × Bool :=
  if s.addr.status &&& NA_SM_ADDR_RESOLVED ≠ 0 then (NaReturn.NA_SUCCESS, s, false)
  else
    let r := na_sm_addr_resolve pollMode env s
    (r.1, r.2, true)

/-- Run a sequence of guarded resolution attempts (as sends posted or retried
against the same address would). -/
def execResolveTrace (pollMode : Bool) : List ResolveEnv → ResolveState → ResolveState
  | [], s => s
  | env :: rest, s =>
    execResolveTrace pollMode rest (resolveIfUnresolved pollMode env s).2.1

/-- A freshly created address (na_sm.c:2369-2396): status 0, nothing open,
no events performed. -/
def freshResolveState (words : List Nat) : ResolveState :=
  ⟨⟨0, false, 0, false, false, false, 0, 0, 0⟩, words⟩

/-- Invariant tying the event counters of an address to its status bits: the
command was pushed exactly once iff `NA_SM_ADDR_CMD_PUSHED` is set, and the
handshake was sent exactly once iff the address is resolved in poll mode. -/
def ResolveInv (pollMode : Bool) (s : ResolveState) : Prop :=
  (s.addr.pushes = if s.addr.status &&& NA_SM_ADDR_CMD_PUSHED ≠ 0 then 1 else 0) ∧
  (s.addr.sends =
    if s.addr.status &&& NA_SM_ADDR_RESOLVED ≠ 0 ∧ pollMode then 1 else 0)

/-- One retried operation as seen by `na_sm_process_retries`: its id, its
status bitmask, and the status bitmask of its address. -/
structure ROp where
  id : Nat
  status : Nat
  addrStatus : Nat
  deriving DecidableEq, Repr

/-- Per-operation environment of a retry pass: whether resolving the op's
address would return `NA_AGAIN` and whether the peer's tx ring is full,
both keyed by op id. -/
structure RetryEnv where
  resolveAgain : Nat → Bool
  txFull : Nat → Bool

/-- Retry-engine state: the retry op queue (head first), the copy-buffer
availability mask, and the (id, result) completions delivered so far. -/
structure RetryState where
  queue : List ROp
  bufMask : Nat
  completions : List (Nat × NaReturn)
  deriving DecidableEq, Repr

/-- Function `na_sm_process_retries` (na_sm.c:3401-3491), sequential model.
Each iteration peeks the queue head without removing it; an unresolved
address is resolved first and a retryable failure (`NA_AGAIN`) stops the
whole drain with `NA_SUCCESS`, the head still queued (na_sm.c:3426-3429); a
failed copy-buffer reservation stops the drain the same way
(na_sm.c:3433-3436); a canceled head releases the buffer and loops without
dequeuing (its canceler removes it, na_sm.c:3443-3448); a full tx ring
takes the error path, failing the drain with `NA_AGAIN` (na_sm.c:3468,
3484-3490); otherwise the head is dequeued, posted and completed.  `fuel`
bounds the iterations of the C `do while(1)` loop. -/
def na_sm_process_retries (env : RetryEnv) :
    Nat → RetryState → NaReturn × RetryState
  | 0, s => (NaReturn.NA_SUCCESS, s)
  | fuel + 1, s =>
    match s.queue with
    | [] => (NaReturn.NA_SUCCESS, s)
    | op :: rest =>
      if op.addrStatus &&& NA_SM_ADDR_RESOLVED = 0 ∧ env.resolveAgain op.id then
        (NaReturn.NA_SUCCESS, s)
      else
        let op' := if op.addrStatus &&& NA_SM_ADDR_RESOLVED = 0 then
            { op with addrStatus := op.addrStatus ||| NA_SM_ADDR_RESOLVED }
          else op
        match na_sm_buf_reserve s.bufMask with
        | none => (NaReturn.NA_SUCCESS, { s with queue := op' :: rest })
        | some (bufIdx, mask') =>
          if op'.status &&& NA_SM_OP_CANCELED ≠ 0 then
            na_sm_process_retries env fuel
              { s with queue := op' :: rest
                       bufMask := na_sm_buf_release mask' bufIdx }
          else if env.txFull op'.id then
            (NaReturn.NA_AGAIN,
              { s with queue := rest
                       bufMask := na_sm_buf_release mask' bufIdx })
          else
            na_sm_process_retries env fuel
              { s with queue := rest, bufMask := mask'
                       completions := s.completions ++ [(op'.id, NaReturn.NA_SUCCESS)] }

/-- Function `na_sm_progress` (na_sm.c:4977-5024), sequential model.  Each
iteration of the do-while body polls (the outcome supplied by the oracle
list as a (progressed, elapsed-milliseconds) pair), then processes retries;
a retry error aborts with that error, progress returns `NA_SUCCESS`
immediately, and otherwise, for a nonzero `timeout`, the elapsed time is
subtracted from the remaining budget and the loop continues while
`remaining > 0`, finally returning `NA_TIMEOUT`.  The C code tracks the
remaining budget in floating-point seconds and re-polls with it; the model
uses integer milliseconds.  `none` means the oracle list was exhausted
while the loop would have continued. -/
def na_sm_progress (env : RetryEnv) (timeout : Nat) :
    List (Bool × Nat) → Int → RetryState → Option (NaReturn × RetryState)
  | [], _, _ => none
  | (progressed, elapsed) :: polls, remaining, rs =>
    let r := na_sm_process_retries env (rs.queue.length + 1) rs
    if r.1 ≠ NaReturn.NA_SUCCESS then some (r.1, r.2)
    else if progressed then some (NaReturn.NA_SUCCESS, r.2)
    else
      let remaining' := if timeout ≠ 0 then remaining - elapsed else remaining
      if remaining' > 0 then na_sm_progress env timeout polls remaining' r.2
      else some (NaReturn.NA_TIMEOUT, r.2)

/-- Entry point of `na_sm_progress`: the remaining budget starts at
`timeout` milliseconds. -/
def na_sm_progress_call (env : RetryEnv) (timeout : Nat)
    (polls : List (Bool × Nat)) (rs : RetryState) :
    Option (NaReturn × RetryState) :=
  na_sm_progress env timeout polls (timeout : Int) rs

/-- Modelled from the spec: `NA_SM_PAGE_SIZE` is `HG_MEM_PAGE_SIZE`
(na_sm.c:66), the system page size, defined in a header outside this tree;
the spec fixes one page at 4096 bytes. -/
def NA_SM_PAGE_SIZE : Nat := 4096

/-- `NA_SM_COPY_BUF_SIZE` (na_sm.c:79): one copy buffer is one page. -/
def NA_SM_COPY_BUF_SIZE : Nat := NA_SM_PAGE_SIZE

/-- `NA_SM_UNEXPECTED_SIZE` (na_sm.c:93). -/
def NA_SM_UNEXPECTED_SIZE : Nat := NA_SM_COPY_BUF_SIZE

/-- `NA_SM_EXPECTED_SIZE` (na_sm.c:94). -/
def NA_SM_EXPECTED_SIZE : Nat := NA_SM_UNEXPECTED_SIZE

/-- Message header pushed on the tx ring (`na_sm_msg_hdr_t`,
na_sm.c:4115-4118): callback type, buffer index (masked to 8 bits), buffer
size (masked to 16 bits) and tag. -/
structure MsgHdr where
  ty : NaCbType
  bufIdx : Nat
  bufSize : Nat
  tag : Nat
  deriving DecidableEq, Repr

/-- A pending unexpected message (`struct na_sm_unexpected_info`): source
address id plus size and tag of the data held until a matching recv is
posted. -/
structure UnexpInfo where
  srcAddr : Nat
  bufSize : Nat
  tag : Nat
  deriving DecidableEq, Repr

/-- Endpoint state touched by the four public message calls: the operation
id being (re)used with its message-info fields, the peer address status
and reference count, the copy-buffer mask, the tx ring, the retry queue,
the two op queues, and the queue of already-received unexpected
messages. -/
structure MsgState where
  op : SmOp
  msgBufSize : Nat
  msgActualSize : Nat
  msgTag : Nat
  addrStatus : Nat
  addrRefCount : Nat
  bufMask : Nat
  txQueue : List MsgHdr
  retryQueue : List Nat
  unexpectedOpQueue : List Nat
  expectedOpQueue : List Nat
  unexpectedMsgQueue : List UnexpInfo
  deriving DecidableEq, Repr

/-- Common body of `na_sm_msg_send_unexpected` (na_sm.c:4049-4144) and
`na_sm_msg_send_expected` (na_sm.c:4226-4330), which differ only in the
size bound and callback type.  The size check comes first
(na_sm.c:4063-4064, 4237-4238), then the not-completed op check
(`NA_BUSY`); then the op is populated and the address reference count
incremented; an unresolved address whose resolution returns `NA_AGAIN`
puts the op on the retry queue and returns `NA_SUCCESS`
(na_sm.c:4088-4095), as does a failed copy-buffer reservation
(na_sm.c:4100-4104); a full tx ring takes the error path (na_sm.c:4120,
4137-4143), releasing the buffer, dropping the reference and re-marking
the op completed, returning `NA_AGAIN`; otherwise the header is pushed and
the op completed immediately.  Resolution and ring fullness are supplied
by the oracle `env` keyed by op id. -/
def msgSendBody (maxSize : Nat) (ty : NaCbType) (env : RetryEnv)
    (bufSize tag : Nat) (s : MsgState) : NaReturn × MsgState :=
  if bufSize > maxSize then (NaReturn.NA_OVERFLOW, s)
  else if s.op.status &&& NA_SM_OP_COMPLETED = 0 then (NaReturn.NA_BUSY, s)
  else
    let s1 := { s with
      op := { s.op with status := 0, cbType := ty, cbRet := none }
      addrRefCount := s.addrRefCount + 1
      msgBufSize := bufSize
      msgActualSize := bufSize
      msgTag := tag }
    if s1.addrStatus &&& NA_SM_ADDR_RESOLVED = 0 ∧ env.resolveAgain s1.op.id then
      (NaReturn.NA_SUCCESS,
        { s1 with retryQueue := s1.retryQueue ++ [s1.op.id] })
    else
      let s2 := if s1.addrStatus &&& NA_SM_ADDR_RESOLVED = 0 then
          { s1 with addrStatus := s1.addrStatus ||| NA_SM_ADDR_RESOLVED }
        else s1
      match na_sm_buf_reserve s2.bufMask with
      | none =>
        (NaReturn.NA_SUCCESS,
          { s2 with retryQueue := s2.retryQueue ++ [s2.op.id] })
      | some (bufIdx, mask') =>
        if env.txFull s2.op.id then
          (NaReturn.NA_AGAIN, { s2 with
            bufMask := na_sm_buf_release mask' bufIdx
            addrRefCount := s2.addrRefCount - 1
            op := { s2.op with status := NA_SM_OP_COMPLETED } })
        else
          let s3 := { s2 with
            bufMask := mask'
            txQueue := s2.txQueue ++
              [MsgHdr.mk ty (bufIdx &&& 0xff) (bufSize &&& 0xffff) tag] }
          (NaReturn.NA_SUCCESS, { s3 with op := na_sm_complete s3.op })

/-- Function `na_sm_msg_send_unexpected` (na_sm.c:4049-4144). -/
def na_sm_msg_send_unexpected (env : RetryEnv) (bufSize tag : Nat)
    (s : MsgState) : NaReturn × MsgState :=
  msgSendBody NA_SM_UNEXPECTED_SIZE NaCbType.NA_CB_SEND_UNEXPECTED env
    bufSize tag s

/-- Function `na_sm_msg_send_expected` (na_sm.c:4226-4330). -/
def na_sm_msg_send_expected (env : RetryEnv) (bufSize tag : Nat)
    (s : MsgState) : NaReturn × MsgState :=
  msgSendBody NA_SM_EXPECTED_SIZE NaCbType.NA_CB_SEND_EXPECTED env
    bufSize tag s

/-- Function `na_sm_msg_recv_unexpected` (na_sm.c:4147-4224): the size
check comes first (na_sm.c:4157-4158), then the not-completed op check;
then the op is populated; if an unexpected message is already pending it
is popped, its size and tag copied into the op, and the op completed;
otherwise the op is pushed on the unexpected-op queue with `QUEUED`
set. -/
def na_sm_msg_recv_unexpected (bufSize : Nat) (s : MsgState) :
    NaReturn × MsgState :=
  if bufSize > NA_SM_UNEXPECTED_SIZE then (NaReturn.NA_OVERFLOW, s)
  else if s.op.status &&& NA_SM_OP_COMPLETED = 0 then (NaReturn.NA_BUSY, s)
  else
    let s1 := { s with
      op := { s.op with
              status := 0,
              cbType := NaCbType.NA_CB_RECV_UNEXPECTED,
              cbRet := none }
      msgBufSize := bufSize }
    match s1.unexpectedMsgQueue with
    | info :: rest =>
      let s2 := { s1 with
        unexpectedMsgQueue := rest
        addrRefCount := s1.addrRefCount + 1
        msgActualSize := info.bufSize
        msgTag := info.tag }
      (NaReturn.NA_SUCCESS, { s2 with op := na_sm_complete s2.op })
    | [] =>
      (NaReturn.NA_SUCCESS, { s1 with
        msgActualSize := 0
        msgTag := 0
        unexpectedOpQueue := s1.unexpectedOpQueue ++ [s1.op.id]
        op := { s1.op with status := 0 ||| NA_SM_OP_QUEUED } })

/-- Function `na_sm_msg_recv_expected` (na_sm.c:4319-4383): the size check
comes first (na_sm.c:4332-4333), then the not-completed op check; then the
op is populated, the source address reference count incremented, and the
op pushed on the expected-op queue with `QUEUED` set. -/
def na_sm_msg_recv_expected (bufSize tag : Nat) (s : MsgState) :
    NaReturn × MsgState :=
  if bufSize > NA_SM_EXPECTED_SIZE then (NaReturn.NA_OVERFLOW, s)
  else if s.op.status &&& NA_SM_OP_COMPLETED = 0 then (NaReturn.NA_BUSY, s)
  else
    let s1 := { s with
      op := { s.op with
              status := 0 ||| NA_SM_OP_QUEUED,
              cbType := NaCbType.NA_CB_RECV_EXPECTED,
              cbRet := none }
      addrRefCount := s.addrRefCount + 1
      msgBufSize := bufSize
      msgActualSize := 0
      msgTag := tag
      expectedOpQueue := s.expectedOpQueue ++ [s.op.id] }
    (NaReturn.NA_SUCCESS, s1)

theorem land_shift_eq_iff (a i : Nat) :
    (a &&& (1 <<< i) = 1 <<< i) ↔ a.testBit i = true := by
  constructor
  · intro h
    have := congrArg (fun x => x.testBit i) h
    simpa [Nat.testBit_and, Nat.shiftLeft_eq, Nat.testBit_two_pow_self] using this
  · intro h
    apply Nat.eq_of_testBit_eq
    intro j
    rcases eq_or_ne i j with rfl | hij
    · simp [Nat.testBit_and, h, Nat.shiftLeft_eq, Nat.testBit_two_pow_self]
    · simp [Nat.testBit_and, Nat.shiftLeft_eq, Nat.testBit_two_pow_of_ne hij]

theorem bufScanLoop_some {a i fuel k : Nat} (h : bufScanLoop a i fuel = some k) :
    a.testBit k = true ∧ i ≤ k ∧ k < i + fuel := by
  induction fuel generalizing i with
  | zero => simp [bufScanLoop] at h
  | succ fuel ih =>
    rw [bufScanLoop] at h
    by_cases ha : a = 0
    · simp [ha] at h
    · simp only [if_neg ha] at h
      by_cases hb : a &&& (1 <<< i) = 1 <<< i
      · simp only [if_pos hb, Option.some.injEq] at h
        subst h
        exact ⟨(land_shift_eq_iff _ _).1 hb, Nat.le_refl _, by omega⟩
      · simp only [if_neg hb] at h
        obtain ⟨h1, h2, h3⟩ := ih h
        exact ⟨h1, by omega, by omega⟩

theorem bufScanLoop_isSome {a i fuel : Nat}
    (h : ∃ j, i ≤ j ∧ j < i + fuel ∧ a.testBit j = true) :
    (bufScanLoop a i fuel).isSome := by
  induction fuel generalizing i with
  | zero =>
    obtain ⟨j, h1, h2, _⟩ := h
    omega
  | succ fuel ih =>
    obtain ⟨j, hj1, hj2, hj3⟩ := h
    rw [bufScanLoop]
    have ha : a ≠ 0 := by
      intro h0
      rw [h0, Nat.zero_testBit] at hj3
      exact Bool.false_ne_true hj3
    simp only [if_neg ha]
    by_cases hb : a &&& (1 <<< i) = 1 <<< i
    · simp [hb]
    · simp only [if_neg hb]
      apply ih
      have hne : j ≠ i := by
        intro hji
        exact hb ((land_shift_eq_iff a i).2 (hji ▸ hj3))
      exact ⟨j, by omega, by omega, hj3⟩

theorem exists_testBit_of_ne_zero {a : Nat} (h : a ≠ 0) :
    ∃ j, a.testBit j = true := by
  by_contra hc
  push_neg at hc
  exact h (Nat.eq_of_testBit_eq fun i => by
    simp [Nat.zero_testBit, Bool.eq_false_iff.2 (hc i)])

theorem testBit_lt_width {a j w : Nat} (ha : a < 2 ^ w) (hj : a.testBit j = true) :
    j < w := by
  by_contra hc
  push_neg at hc
  have : a < 2 ^ j := lt_of_lt_of_le ha (Nat.pow_le_pow_right (by norm_num) hc)
  rw [Nat.testBit_lt_two_pow this] at hj
  exact Bool.false_ne_true hj

theorem na_sm_buf_reserve_none_iff {a : Nat} (ha : a < 2 ^ 64) :
    na_sm_buf_reserve a = none ↔ a = 0 := by
  constructor
  · intro h
    by_contra h0
    obtain ⟨j, hj⟩ := exists_testBit_of_ne_zero h0
    have hjw : j < 64 := testBit_lt_width ha hj
    have : (bufScanLoop a 0 NA_SM_NUM_BUFS).isSome :=
      bufScanLoop_isSome ⟨j, Nat.zero_le _, by simpa [NA_SM_NUM_BUFS] using hjw, hj⟩
    unfold na_sm_buf_reserve at h
    rcases hs : bufScanLoop a 0 NA_SM_NUM_BUFS with _ | i
    · rw [hs] at this; simp at this
    · rw [hs] at h; simp at h
  · intro h
    subst h
    rfl

theorem clear_mask_testBit {a i j : Nat} (ha : a < 2 ^ 64) :
    (a &&& ((2 ^ 64 - 1) ^^^ (1 <<< i))).testBit j = (a.testBit j && !decide (j = i)) := by
  rw [Nat.testBit_and, Nat.testBit_xor, Nat.testBit_two_pow_sub_one, Nat.shiftLeft_eq,
    one_mul, Nat.testBit_two_pow]
  by_cases hj : j < 64
  · rcases eq_or_ne i j with rfl | hij
    · simp [hj]
    · simp [hj, hij, Ne.symm hij]
  · have : a.testBit j = false := Nat.testBit_lt_two_pow
      (lt_of_lt_of_le ha (Nat.pow_le_pow_right (by norm_num) (by omega)))
    simp [this]

theorem na_sm_buf_reserve_some {a i m : Nat} (ha : a < 2 ^ 64)
    (h : na_sm_buf_reserve a = some (i, m)) :
    a.testBit i = true ∧ i < 64 ∧
      (∀ j, m.testBit j = (a.testBit j && !decide (j = i))) ∧
      na_sm_buf_release m i = a := by
  unfold na_sm_buf_reserve at h
  rcases hs : bufScanLoop a 0 NA_SM_NUM_BUFS with _ | k
  · rw [hs] at h; simp at h
  · rw [hs] at h
    simp only [Option.some.injEq, Prod.mk.injEq] at h
    obtain ⟨rfl, rfl⟩ := h
    obtain ⟨hbit, -, hlt⟩ := bufScanLoop_some hs
    have hk64 : k < 64 := by simpa [NA_SM_NUM_BUFS] using hlt
    refine ⟨hbit, hk64, fun j => clear_mask_testBit ha, ?_⟩
    apply Nat.eq_of_testBit_eq
    intro j
    rw [na_sm_buf_release, Nat.testBit_or, clear_mask_testBit ha,
      Nat.shiftLeft_eq, one_mul, Nat.testBit_two_pow]
    rcases eq_or_ne j k with rfl | hjk
    · simp [hbit]
    · simp [hjk, Ne.symm hjk]

theorem bufPoolStep_inv {s : BufPool} (hs : BufPoolInv s) (op : PoolOp) :
    BufPoolInv (bufPoolStep s op) := by
  obtain ⟨hm, hnd, hheld⟩ := hs
  cases op with
  | reserve =>
    rcases hr : na_sm_buf_reserve s.mask with _ | p
    · simpa [bufPoolStep, hr] using ⟨hm, hnd, hheld⟩
    · obtain ⟨i, m⟩ := p
      obtain ⟨hbit, hi64, hclr, -⟩ := na_sm_buf_reserve_some hm hr
      have hm_eq : m = s.mask &&& ((2 ^ 64 - 1) ^^^ (1 <<< i)) := by
        unfold na_sm_buf_reserve at hr
        rcases hs2 : bufScanLoop s.mask 0 NA_SM_NUM_BUFS with _ | k
        · rw [hs2] at hr; simp at hr
        · rw [hs2] at hr
          simp only [Option.some.injEq, Prod.mk.injEq] at hr
          rw [← hr.2, hr.1]
      have hmle : m ≤ s.mask := hm_eq ▸ Nat.and_le_left
      refine ⟨?_, ?_, ?_⟩
      · simpa [bufPoolStep, hr] using lt_of_le_of_lt hmle hm
      · simp only [bufPoolStep, hr, List.nodup_cons]
        refine ⟨fun hmem => ?_, hnd⟩
        have := (hheld i hmem).2
        rw [this] at hbit
        exact Bool.false_ne_true hbit
      · simp only [bufPoolStep, hr]
        intro x hx
        rcases List.mem_cons.1 hx with rfl | hx'
        · exact ⟨hi64, by simp [hclr x]⟩
        · obtain ⟨hx64, hxbit⟩ := hheld x hx'
          exact ⟨hx64, by simp [hclr x, hxbit]⟩
  | release i =>
    by_cases hmem : i ∈ s.held
    · have hi64 : i < 64 := (hheld i hmem).1
      refine ⟨?_, ?_, ?_⟩
      · simp only [bufPoolStep, if_pos hmem]
        refine Nat.or_lt_two_pow hm ?_
        rw [Nat.shiftLeft_eq, one_mul]
        exact Nat.pow_lt_pow_right (by norm_num) hi64
      · simp only [bufPoolStep, if_pos hmem]
        exact hnd.erase i
      · simp only [bufPoolStep, if_pos hmem]
        intro x hx
        have hxi : x ≠ i := (List.Nodup.mem_erase_iff hnd).1 hx |>.1
        have hxmem : x ∈ s.held := (List.Nodup.mem_erase_iff hnd).1 hx |>.2
        obtain ⟨hx64, hxbit⟩ := hheld x hxmem
        refine ⟨hx64, ?_⟩
        rw [na_sm_buf_release, Nat.testBit_or, hxbit, Nat.shiftLeft_eq, one_mul,
          Nat.testBit_two_pow]
        simp [Ne.symm hxi]
    · simpa [bufPoolStep, if_neg hmem] using ⟨hm, hnd, hheld⟩

theorem bufPoolFoldl_inv (l : List PoolOp) (s : BufPool) (hs : BufPoolInv s) :
    BufPoolInv (l.foldl bufPoolStep s) := by
  induction l generalizing s with
  | nil => exact hs
  | cons op ops ih => exact ih _ (bufPoolStep_inv hs op)

theorem bufPoolExec_inv (ops : List PoolOp) : BufPoolInv (bufPoolExec ops) :=
  bufPoolFoldl_inv ops _ ⟨by norm_num, List.nodup_nil, by simp⟩

theorem bufScanLoop_zero (i fuel : Nat) : bufScanLoop 0 i fuel = none := by
  cases fuel with
  | zero => rfl
  | succ fuel => rfl

theorem set_getD_self {l : List Nat} {j : Nat} (h : j < l.length) :
    l.set j (l.getD j 0) = l := by
  apply List.ext_getElem?
  intro n
  rcases eq_or_ne j n with rfl | hne
  · simp [List.getElem?_set_self h, List.getElem?_eq_getElem h]
  · simp [List.getElem?_set_ne hne]

theorem getD_set_self {l : List Nat} {j : Nat} (h : j < l.length) (a : Nat) :
    (l.set j a).getD j 0 = a := by
  simp [List.getElem?_set_self h]

theorem getD_set_ne {l : List Nat} {j k : Nat} (h : j ≠ k) (a : Nat) :
    (l.set j a).getD k 0 = l.getD k 0 := by
  simp [List.getElem?_set_ne h]

theorem qpScanLoop_some {vals : List Nat} {j0 j i : Nat}
    (h : qpScanLoop vals j0 = some (j, i)) :
    j0 ≤ j ∧ j - j0 < vals.length ∧ i < 64 ∧
      (vals.getD (j - j0) 0).testBit i = true := by
  induction vals generalizing j0 with
  | nil => simp [qpScanLoop] at h
  | cons v rest ih =>
    rw [qpScanLoop] at h
    rcases hs : bufScanLoop v 0 64 with _ | i'
    · rw [hs] at h
      obtain ⟨h1, h2, h3, h4⟩ := ih h
      refine ⟨by omega, ?_, h3, ?_⟩
      · simp only [List.length_cons]; omega
      · have hj : j - j0 = (j - (j0 + 1)) + 1 := by omega
        rw [hj]
        simpa using h4
    · rw [hs] at h
      simp only [Option.some.injEq, Prod.mk.injEq] at h
      obtain ⟨rfl, rfl⟩ := h
      obtain ⟨hbit, -, hlt⟩ := bufScanLoop_some hs
      exact ⟨Nat.le_refl _, by simp, by omega, by simpa using hbit⟩

theorem qpScanLoop_none_iff {vals : List Nat} (hw : ∀ v ∈ vals, v < 2 ^ 64)
    (j0 : Nat) : qpScanLoop vals j0 = none ↔ ∀ v ∈ vals, v = 0 := by
  induction vals generalizing j0 with
  | nil => simp [qpScanLoop]
  | cons v rest ih =>
    rw [qpScanLoop]
    rcases hs : bufScanLoop v 0 64 with _ | i
    · have hv : v = 0 := by
        by_contra h0
        obtain ⟨b, hb⟩ := exists_testBit_of_ne_zero h0
        have hb64 : b < 64 := testBit_lt_width (hw v (by simp)) hb
        have := @bufScanLoop_isSome v 0 64
          ⟨b, Nat.zero_le _, by omega, hb⟩
        rw [hs] at this
        simp at this
      have := ih (fun w hwm => hw w (by simp [hwm])) (j0 + 1)
      simp only [hv, List.mem_cons]
      constructor
      · intro hnone w hwmem
        rcases hwmem with rfl | hwmem
        · rfl
        · exact (this.1 hnone) w hwmem
      · intro hall
        exact this.2 fun w hwmem => hall w (Or.inr hwmem)
    · simp only [List.mem_cons]
      constructor
      · intro hcon; exact absurd hcon (by simp)
      · intro hall
        have hv : v = 0 := hall v (Or.inl rfl)
        rw [hv, bufScanLoop_zero] at hs
        exact absurd hs (by simp)

theorem na_sm_queue_pair_reserve_none_iff {vals : List Nat}
    (hw : ∀ v ∈ vals, v < 2 ^ 64) :
    na_sm_queue_pair_reserve vals = none ↔ ∀ v ∈ vals, v = 0 := by
  unfold na_sm_queue_pair_reserve
  rcases hs : qpScanLoop vals 0 with _ | p
  · simpa using (qpScanLoop_none_iff hw 0).1 hs
  · obtain ⟨j, i⟩ := p
    constructor
    · intro h; simp at h
    · intro hall
      rw [(qpScanLoop_none_iff hw 0).2 hall] at hs
      exact absurd hs (by simp)

theorem na_sm_queue_pair_reserve_some {vals vals' : List Nat} {x : Nat}
    (hw : ∀ v ∈ vals, v < 2 ^ 64)
    (h : na_sm_queue_pair_reserve vals = some (x, vals')) :
    x / 64 < vals.length ∧
      (vals.getD (x / 64) 0).testBit (x % 64) = true ∧
      vals' = vals.set (x / 64)
        ((vals.getD (x / 64) 0) &&& ((2 ^ 64 - 1) ^^^ (1 <<< (x % 64)))) ∧
      (∀ b, (vals'.getD (x / 64) 0).testBit b =
        ((vals.getD (x / 64) 0).testBit b && !decide (b = x % 64))) ∧
      (∀ k, k ≠ x / 64 → vals'.getD k 0 = vals.getD k 0) ∧
      na_sm_queue_pair_release vals' x = vals := by
  unfold na_sm_queue_pair_reserve at h
  rcases hs : qpScanLoop vals 0 with _ | p
  · rw [hs] at h; simp at h
  · obtain ⟨j, i⟩ := p
    rw [hs] at h
    simp only [Option.some.injEq, Prod.mk.injEq] at h
    obtain ⟨rfl, rfl⟩ := h
    obtain ⟨-, hjlen, hi64, hbit⟩ := qpScanLoop_some hs
    simp only [Nat.sub_zero] at hjlen hbit
    have hdiv : (i + j * 64) / 64 = j := by
      rw [Nat.add_mul_div_right _ _ (by norm_num : 0 < 64), Nat.div_eq_of_lt hi64]
      omega
    have hmod : (i + j * 64) % 64 = i := by
      rw [Nat.add_mul_mod_self_right, Nat.mod_eq_of_lt hi64]
    rw [hdiv, hmod]
    have hwj : vals.getD j 0 < 2 ^ 64 := by
      have : vals.getD j 0 ∈ vals := by
        rw [List.getD_eq_getElem?_getD, List.getElem?_eq_getElem hjlen]
        exact List.getElem_mem _
      exact hw _ this
    refine ⟨hjlen, hbit, rfl, ?_, ?_, ?_⟩
    · intro b
      rw [getD_set_self hjlen]
      exact clear_mask_testBit hwj
    · intro k hk
      exact getD_set_ne (Ne.symm hk) _
    · unfold na_sm_queue_pair_release
      rw [hdiv, hmod, getD_set_self hjlen, List.set_set]
      have hword : ((vals.getD j 0) &&& ((2 ^ 64 - 1) ^^^ (1 <<< i))) ||| (1 <<< i) =
          vals.getD j 0 := by
        apply Nat.eq_of_testBit_eq
        intro b
        rw [Nat.testBit_or, clear_mask_testBit hwj, Nat.shiftLeft_eq, one_mul,
          Nat.testBit_two_pow]
        rcases eq_or_ne b i with rfl | hbi
        · rw [hbit]; simp
        · simp [hbi, Ne.symm hbi]
      rw [hword]
      exact set_getD_self hjlen

theorem qpPoolStep_inv {s : QpPool} (hs : QpPoolInv s) (op : PoolOp) :
    QpPoolInv (qpPoolStep s op) := by
  obtain ⟨hwords, hnd, hheld⟩ := hs
  cases op with
  | reserve =>
    rcases hr : na_sm_queue_pair_reserve s.words with _ | p
    · simpa [qpPoolStep, hr] using ⟨hwords, hnd, hheld⟩
    · obtain ⟨x, w⟩ := p
      obtain ⟨hxlen, hxbit, hwe, hclr, hother, -⟩ :=
        na_sm_queue_pair_reserve_some hwords hr
      refine ⟨?_, ?_, ?_⟩
      · simp only [qpPoolStep, hr]
        intro v hv
        rw [hwe] at hv
        rcases List.mem_or_eq_of_mem_set hv with hv' | rfl
        · exact hwords v hv'
        · calc (s.words.getD (x / 64) 0) &&& _ ≤ s.words.getD (x / 64) 0 :=
                Nat.and_le_left
            _ < 2 ^ 64 := by
                have hmem : s.words.getD (x / 64) 0 ∈ s.words := by
                  rw [List.getD_eq_getElem?_getD, List.getElem?_eq_getElem hxlen]
                  exact List.getElem_mem _
                exact hwords _ hmem
      · simp only [qpPoolStep, hr, List.nodup_cons]
        refine ⟨fun hmem => ?_, hnd⟩
        have := (hheld x hmem).2
        rw [this] at hxbit
        exact Bool.false_ne_true hxbit
      · simp only [qpPoolStep, hr]
        intro y hy
        rcases List.mem_cons.1 hy with rfl | hy'
        · refine ⟨by simpa [hwe] using hxlen, ?_⟩
          rw [hclr (y % 64)]
          simp
        · obtain ⟨hylen, hybit⟩ := hheld y hy'
          refine ⟨by simpa [hwe] using hylen, ?_⟩
          rcases eq_or_ne (y / 64) (x / 64) with hdiv | hdiv
          · rw [hdiv] at hybit
            rw [hdiv, hclr (y % 64), hybit]
            simp
          · rw [hother _ hdiv]
            exact hybit
  | release i =>
    by_cases hmem : i ∈ s.held
    · obtain ⟨hilen, hibit⟩ := hheld i hmem
      refine ⟨?_, ?_, ?_⟩
      · simp only [qpPoolStep, if_pos hmem, na_sm_queue_pair_release]
        intro v hv
        rcases List.mem_or_eq_of_mem_set hv with hv' | rfl
        · exact hwords v hv'
        · have hmemw : s.words.getD (i / 64) 0 ∈ s.words := by
            rw [List.getD_eq_getElem?_getD, List.getElem?_eq_getElem hilen]
            exact List.getElem_mem _
          refine Nat.or_lt_two_pow (hwords _ hmemw) ?_
          rw [Nat.shiftLeft_eq, one_mul]
          exact Nat.pow_lt_pow_right (by norm_num) (Nat.mod_lt _ (by norm_num))
      · simp only [qpPoolStep, if_pos hmem]
        exact hnd.erase i
      · simp only [qpPoolStep, if_pos hmem, na_sm_queue_pair_release]
        intro y hy
        have hyi : y ≠ i := (List.Nodup.mem_erase_iff hnd).1 hy |>.1
        have hymem : y ∈ s.held := (List.Nodup.mem_erase_iff hnd).1 hy |>.2
        obtain ⟨hylen, hybit⟩ := hheld y hymem
        refine ⟨by simpa using hylen, ?_⟩
        rcases eq_or_ne (y / 64) (i / 64) with hdiv | hdiv
        · rw [hdiv] at hybit
          rw [hdiv, getD_set_self hilen, Nat.testBit_or, Nat.shiftLeft_eq, one_mul,
            Nat.testBit_two_pow, hybit]
          have hne : i % 64 ≠ y % 64 := by
            intro hmm
            exact hyi (by omega)
          simp [hne]
        · rw [getD_set_ne (Ne.symm hdiv)]
          exact hybit
    · simpa [qpPoolStep, if_neg hmem] using ⟨hwords, hnd, hheld⟩

theorem qpPoolFoldl_inv (l : List PoolOp) (s : QpPool) (hs : QpPoolInv s) :
    QpPoolInv (l.foldl qpPoolStep s) := by
  induction l generalizing s with
  | nil => exact hs
  | cons op ops ih => exact ih _ (qpPoolStep_inv hs op)

theorem qpPoolExec_inv (ops : List PoolOp) : QpPoolInv (qpPoolExec ops) := by
  refine qpPoolFoldl_inv ops _ ⟨?_, List.nodup_nil, by simp⟩
  intro w hw
  simp only [List.mem_cons, List.not_mem_nil, or_false] at hw
  rcases hw with rfl | rfl | rfl | rfl <;> norm_num

/-- C1: for every sequence of reserve/release steps on the copy-buffer pool's
64-bit availability bitmask, no two successful reserve calls return the same
buffer index while both reservations are held (the held-index list stays
duplicate-free); a successful `na_sm_buf_reserve` returns an index whose
availability bit was set and clears exactly that one bit,
`na_sm_buf_release` sets exactly that bit back, and a full scan of an
exhausted mask returns the retryable `NA_AGAIN` code (`none`) instead of
blocking; the same holds for the 256-bit queue-pair bitmask handled by
`na_sm_queue_pair_reserve`/`na_sm_queue_pair_release`. -/
theorem buf_and_queue_pair_reserve_exclusive :
    (∀ ops : List PoolOp, (bufPoolExec ops).held.Nodup) ∧
    (∀ a i m, a < 2 ^ 64 → na_sm_buf_reserve a = some (i, m) →
      a.testBit i = true ∧ i < 64 ∧
        (∀ j, m.testBit j = (a.testBit j && !decide (j = i))) ∧
        na_sm_buf_release m i = a) ∧
    (∀ a, a < 2 ^ 64 → (na_sm_buf_reserve a = none ↔ a = 0)) ∧
    (∀ ops : List PoolOp, (qpPoolExec ops).held.Nodup) ∧
    (∀ vals x vals', (∀ v ∈ vals, v < 2 ^ 64) →
      na_sm_queue_pair_reserve vals = some (x, vals') →
      (vals.getD (x / 64) 0).testBit (x % 64) = true ∧
        (∀ b, (vals'.getD (x / 64) 0).testBit b =
          ((vals.getD (x / 64) 0).testBit b && !decide (b = x % 64))) ∧
        (∀ k, k ≠ x / 64 → vals'.getD k 0 = vals.getD k 0) ∧
        na_sm_queue_pair_release vals' x = vals) ∧
    (∀ vals, (∀ v ∈ vals, v < 2 ^ 64) →
      (na_sm_queue_pair_reserve vals = none ↔ ∀ v ∈ vals, v = 0)) := by
  refine ⟨fun ops => (bufPoolExec_inv ops).2.1, ?_, ?_,
    fun ops => (qpPoolExec_inv ops).2.1, ?_, ?_⟩
  · intro a i m ha h
    exact na_sm_buf_reserve_some ha h
  · intro a ha
    exact na_sm_buf_reserve_none_iff ha
  · intro vals x vals' hw h
    obtain ⟨-, h2, -, h4, h5, h6⟩ := na_sm_queue_pair_reserve_some hw h
    exact ⟨h2, h4, h5, h6⟩
  · intro vals hw
    exact na_sm_queue_pair_reserve_none_iff hw

/-- Witness for C1: the theorem applied at concrete masks and concrete
operation sequences. -/
theorem buf_and_queue_pair_reserve_exclusive_witness :
    (bufPoolExec [PoolOp.reserve, PoolOp.reserve, PoolOp.release 0]).held.Nodup ∧
    ((6 : Nat).testBit 1 = true ∧ 1 < 64 ∧
      (∀ j, (4 : Nat).testBit j = ((6 : Nat).testBit j && !decide (j = 1))) ∧
      na_sm_buf_release 4 1 = 6) ∧
    (na_sm_buf_reserve 0 = none ↔ (0 : Nat) = 0) ∧
    (qpPoolExec [PoolOp.reserve, PoolOp.release 0, PoolOp.reserve]).held.Nodup ∧
    (([0, 5] : List Nat).getD (64 / 64) 0).testBit (64 % 64) = true ∧
    na_sm_queue_pair_release [0, 4] 64 = [0, 5] ∧
    (na_sm_queue_pair_reserve [0, 0] = none ↔ ∀ v ∈ ([0, 0] : List Nat), v = 0) := by
  refine ⟨buf_and_queue_pair_reserve_exclusive.1 _,
    buf_and_queue_pair_reserve_exclusive.2.1 6 1 4 (by norm_num) (by decide),
    buf_and_queue_pair_reserve_exclusive.2.2.1 0 (by norm_num),
    buf_and_queue_pair_reserve_exclusive.2.2.2.1 _, ?_, ?_,
    buf_and_queue_pair_reserve_exclusive.2.2.2.2.2 [0, 0] (by decide)⟩
  · exact (buf_and_queue_pair_reserve_exclusive.2.2.2.2.1 [0, 5] 64 [0, 4]
      (by decide) (by decide)).1
  · exact (buf_and_queue_pair_reserve_exclusive.2.2.2.2.1 [0, 5] 64 [0, 4]
      (by decide) (by decide)).2.2.2

theorem and_two_pow_eq_zero_iff (x i : Nat) :
    x &&& 2 ^ i = 0 ↔ x.testBit i = false := by
  constructor
  · intro h
    have := congrArg (fun y => y.testBit i) h
    simpa [Nat.testBit_and, Nat.testBit_two_pow_self, Nat.zero_testBit] using this
  · intro h
    apply Nat.eq_of_testBit_eq
    intro j
    rw [Nat.testBit_and, Nat.zero_testBit, Nat.testBit_two_pow]
    rcases eq_or_ne i j with rfl | hij
    · simp [h]
    · simp [hij]

theorem and_one_eq_zero_iff (x : Nat) : x &&& 1 = 0 ↔ x.testBit 0 = false := by
  have h := and_two_pow_eq_zero_iff x 0
  rwa [pow_zero] at h

theorem and_two_eq_zero_iff (x : Nat) : x &&& 2 = 0 ↔ x.testBit 1 = false := by
  have h := and_two_pow_eq_zero_iff x 1
  rwa [pow_one] at h

theorem and_four_eq_zero_iff (x : Nat) : x &&& 4 = 0 ↔ x.testBit 2 = false := by
  have h := and_two_pow_eq_zero_iff x 2
  rwa [show (2 : Nat) ^ 2 = 4 from by norm_num] at h

theorem cancel_unqueued_eq (ctx : CancelCtx)
    (hc : ctx.op.status &&& NA_SM_OP_COMPLETED = 0)
    (hq : ctx.op.status &&& NA_SM_OP_QUEUED = 0) :
    na_sm_cancel ctx = (NaReturn.NA_SUCCESS,
      { ctx with op := { ctx.op with status := ctx.op.status ||| NA_SM_OP_CANCELED } }) := by
  have hq2 : (ctx.op.status ||| NA_SM_OP_CANCELED) &&& NA_SM_OP_QUEUED = 0 := by
    rw [NA_SM_OP_QUEUED, and_four_eq_zero_iff, NA_SM_OP_CANCELED, Nat.testBit_or]
    rw [NA_SM_OP_QUEUED, and_four_eq_zero_iff] at hq
    rw [hq]
    decide
  unfold na_sm_cancel
  rw [if_neg (by simp [hc])]
  cases hty : ctx.op.cbType <;>
    simp only [hty, cancelOnQueue] <;>
    first
      | rfl
      | rw [if_neg (by simp [hq2])]

/-- C2 counterexample: an operation of type recv-expected that has been
removed from every queue (`NA_SM_OP_QUEUED` clear) and is not yet completed;
invoking `na_sm_cancel` on it and then letting the in-flight
`na_sm_complete` run delivers `NA_CANCELED`, not `NA_SUCCESS` as the claim
states. -/
theorem cancel_in_flight_counterexample :
    (na_sm_complete (na_sm_cancel
      ⟨⟨1, 0, NaCbType.NA_CB_RECV_EXPECTED, none⟩, [], [], []⟩).2.op).cbRet ≠
      some NaReturn.NA_SUCCESS := by decide

/-- C2 (amended): if `na_sm_cancel` is invoked on an operation that has
already been removed from every queue (`NA_SM_OP_QUEUED` clear) but whose
`NA_SM_OP_COMPLETED` bit is not yet set, the cancel touches no queue and
does not itself deliver a completion — the in-flight completion still
happens — but it leaves `NA_SM_OP_CANCELED` set in the status, so the
completion callback result subsequently delivered by `na_sm_complete` for
that operation is `NA_CANCELED`, not `NA_SUCCESS`. -/
theorem na_sm_cancel_in_flight (ctx : CancelCtx)
    (hc : ctx.op.status &&& NA_SM_OP_COMPLETED = 0)
    (hq : ctx.op.status &&& NA_SM_OP_QUEUED = 0) :
    (na_sm_cancel ctx).1 = NaReturn.NA_SUCCESS ∧
      (na_sm_cancel ctx).2.unexpectedOpQueue = ctx.unexpectedOpQueue ∧
      (na_sm_cancel ctx).2.expectedOpQueue = ctx.expectedOpQueue ∧
      (na_sm_cancel ctx).2.retryOpQueue = ctx.retryOpQueue ∧
      (na_sm_cancel ctx).2.op.cbRet = ctx.op.cbRet ∧
      (na_sm_cancel ctx).2.op.status = ctx.op.status ||| NA_SM_OP_CANCELED ∧
      (na_sm_complete (na_sm_cancel ctx).2.op).cbRet = some NaReturn.NA_CANCELED := by
  rw [cancel_unqueued_eq ctx hc hq]
  refine ⟨rfl, rfl, rfl, rfl, rfl, rfl, ?_⟩
  have hcanc : (ctx.op.status ||| NA_SM_OP_CANCELED) &&& NA_SM_OP_CANCELED ≠ 0 := by
    rw [NA_SM_OP_CANCELED, Ne, and_two_eq_zero_iff, Nat.testBit_or]
    have h21 : Nat.testBit 2 1 = true := by decide
    simp [h21]
  simp [na_sm_complete, hcanc]

/-- Witness for C2's amended theorem at a concrete operation. -/
theorem na_sm_cancel_in_flight_witness :
    (na_sm_complete (na_sm_cancel
      ⟨⟨2, 0, NaCbType.NA_CB_SEND_EXPECTED, none⟩, [4], [5], [6]⟩).2.op).cbRet =
      some NaReturn.NA_CANCELED :=
  (na_sm_cancel_in_flight
    ⟨⟨2, 0, NaCbType.NA_CB_SEND_EXPECTED, none⟩, [4], [5], [6]⟩
    (by decide) (by decide)).2.2.2.2.2.2

/-- C3 counterexample: an endpoint whose address poll list is non-empty (one
address) while all four queues are empty.  `na_sm_endpoint_close` does not
return `NA_BUSY`: it destroys the listed address and proceeds to free the
source address, contradicting the claim that a non-empty address-poll list
produces `NA_BUSY` without freeing anything. -/
theorem endpoint_close_poll_list_counterexample :
    (na_sm_endpoint_close
        ⟨[7], [], [], [], [], true, true, false, false, false, []⟩).1 ≠
      NaReturn.NA_BUSY ∧
    (na_sm_endpoint_close
        ⟨[7], [], [], [], [], true, true, false, false, false, []⟩).2.sourceAddrFreed =
      true := by
  decide

/-- C3 (amended): for every endpoint state in which the unexpected-message
queue, the unexpected-op queue, the expected-op queue, or the retry-op queue
is non-empty, `na_sm_endpoint_close` returns `NA_BUSY` and does not free the
shared region, the socket, or the source address, and leaves every queue
unchanged; a non-empty address-poll list, by contrast, is drained by
destroying the listed addresses before the queue checks, not reported as
busy. -/
theorem na_sm_endpoint_close_busy (ep : EndpointClose)
    (h : ep.unexpectedMsgQueue ≠ [] ∨ ep.unexpectedOpQueue ≠ [] ∨
      ep.expectedOpQueue ≠ [] ∨ ep.retryOpQueue ≠ []) :
    (na_sm_endpoint_close ep).1 = NaReturn.NA_BUSY ∧
      (na_sm_endpoint_close ep).2.sourceRegionFreed = ep.sourceRegionFreed ∧
      (na_sm_endpoint_close ep).2.sockClosed = ep.sockClosed ∧
      (na_sm_endpoint_close ep).2.sourceAddrFreed = ep.sourceAddrFreed ∧
      (na_sm_endpoint_close ep).2.hasSourceAddr = ep.hasSourceAddr ∧
      (na_sm_endpoint_close ep).2.unexpectedMsgQueue = ep.unexpectedMsgQueue ∧
      (na_sm_endpoint_close ep).2.unexpectedOpQueue = ep.unexpectedOpQueue ∧
      (na_sm_endpoint_close ep).2.expectedOpQueue = ep.expectedOpQueue ∧
      (na_sm_endpoint_close ep).2.retryOpQueue = ep.retryOpQueue := by
  unfold na_sm_endpoint_close
  by_cases h1 : ep.unexpectedMsgQueue = [] <;>
    by_cases h2 : ep.unexpectedOpQueue = [] <;>
      by_cases h3 : ep.expectedOpQueue = [] <;>
        by_cases h4 : ep.retryOpQueue = [] <;>
          simp_all

/-- Witness for C3's amended theorem: one posted-but-uncompleted operation on
the retry queue makes close report busy. -/
theorem na_sm_endpoint_close_busy_witness :
    (na_sm_endpoint_close
        ⟨[], [], [], [], [5], true, true, false, false, false, []⟩).1 =
      NaReturn.NA_BUSY :=
  (na_sm_endpoint_close_busy
    ⟨[], [], [], [], [5], true, true, false, false, false, []⟩ (by decide)).1

theorem iovLen_cons (s : Nat × Nat) (l : List (Nat × Nat)) :
    iovLen (s :: l) = s.2 + iovLen l := by
  simp [iovLen]

theorem iovLen_append (l₁ l₂ : List (Nat × Nat)) :
    iovLen (l₁ ++ l₂) = iovLen l₁ + iovLen l₂ := by
  simp [iovLen]

theorem iovBytes_nil : iovBytes [] = [] := rfl

theorem iovBytes_cons (s : Nat × Nat) (l : List (Nat × Nat)) :
    iovBytes (s :: l) = List.range' s.1 s.2 ++ iovBytes l := by
  simp [iovBytes]

theorem iovBytes_append (l₁ l₂ : List (Nat × Nat)) :
    iovBytes (l₁ ++ l₂) = iovBytes l₁ ++ iovBytes l₂ := by
  simp [iovBytes]

theorem length_iovBytes (l : List (Nat × Nat)) :
    (iovBytes l).length = iovLen l := by
  induction l with
  | nil => simp [iovBytes, iovLen]
  | cons s rest ih => simp [iovBytes_cons, iovLen_cons, ih]

theorem range'_split (b m n : Nat) (h : m ≤ n) :
    List.range' b m ++ List.range' (b + m) (n - m) = List.range' b n := by
  rw [List.range'_append_1]
  congr 1
  omega

theorem take_range' (b n m : Nat) (h : m ≤ n) :
    (List.range' b n).take m = List.range' b m := by
  rw [← range'_split b m n h, List.take_append_of_le_length (by simp),
    List.take_of_length_le (by simp)]

theorem getD_of_lt {α : Type} {l : List α} {i : Nat} (d : α) (h : i < l.length) :
    l.getD i d = l[i] := by
  rw [List.getD_eq_getElem?_getD, List.getElem?_eq_getElem h]
  rfl

theorem iovIndexOffsetLoop_spec (offset : Nat) :
    ∀ (rest : List (Nat × Nat)) (i nextOff : Nat),
      nextOff ≤ offset → offset < nextOff + iovLen rest →
      ∃ k, k < rest.length ∧
        iovIndexOffsetLoop offset rest i nextOff (offset - nextOff) =
          (i + k, offset - (nextOff + iovLen (rest.take k))) ∧
        nextOff + iovLen (rest.take k) ≤ offset ∧
        offset < nextOff + iovLen (rest.take k) + (rest.getD k (0, 0)).2 := by
  intro rest
  induction rest with
  | nil =>
    intro i nextOff h1 h2
    simp [iovLen] at h2
    omega
  | cons s rest ih =>
    intro i nextOff h1 h2
    obtain ⟨b, l⟩ := s
    rw [iovIndexOffsetLoop]
    by_cases hbr : offset < nextOff + l
    · refine ⟨0, by simp, ?_, ?_, ?_⟩
      · rw [if_pos hbr]
        simp [iovLen]
      · simpa [iovLen] using h1
      · simpa [iovLen] using hbr
    · push_neg at hbr
      have h2' : offset < (nextOff + l) + iovLen rest := by
        rw [iovLen_cons] at h2
        omega
      obtain ⟨k, hk1, hk2, hk3, hk4⟩ := ih (i + 1) (nextOff + l) hbr h2'
      refine ⟨k + 1, by simpa using hk1, ?_, ?_, ?_⟩
      · rw [if_neg (by omega), Nat.sub_sub, hk2]
        simp only [List.take_succ_cons, iovLen_cons, Prod.mk.injEq]
        constructor <;> omega
      · simp only [List.take_succ_cons, iovLen_cons]
        omega
      · simp only [List.take_succ_cons, iovLen_cons, List.getD_cons_succ]
        omega

theorem na_sm_iov_get_index_offset_spec (iov : List (Nat × Nat)) (offset : Nat)
    (h : offset < iovLen iov) :
    ∃ si, si < iov.length ∧
      na_sm_iov_get_index_offset iov offset =
        (si, offset - iovLen (iov.take si)) ∧
      iovLen (iov.take si) ≤ offset ∧
      offset < iovLen (iov.take si) + (iov.getD si (0, 0)).2 := by
  obtain ⟨k, h1, h2, h3, h4⟩ :=
    iovIndexOffsetLoop_spec offset iov 0 0 (Nat.zero_le _) (by simpa)
  refine ⟨k, h1, ?_, by simpa using h3, by simpa using h4⟩
  rw [na_sm_iov_get_index_offset]
  simpa using h2

theorem iovTranslateAll_spec :
    ∀ (rest : List (Nat × Nat)) (r : Nat), r ≤ iovLen rest →
      iovLen (iovTranslateAll rest r) = r ∧
        iovBytes (iovTranslateAll rest r) = (iovBytes rest).take r := by
  intro rest
  induction rest with
  | nil =>
    intro r hr
    simp [iovLen] at hr
    subst hr
    simp [iovTranslateAll, iovLen, iovBytes]
  | cons s rest ih =>
    intro r hr
    obtain ⟨b, l⟩ := s
    rw [iovTranslateAll]
    by_cases hr0 : r = 0
    · subst hr0
      simp [iovLen, iovBytes]
    · rw [if_neg hr0]
      have hrle : r - min r l ≤ iovLen rest := by
        rw [iovLen_cons] at hr
        omega
      obtain ⟨ih1, ih2⟩ := ih (r - min r l) hrle
      constructor
      · rw [iovLen_cons, ih1]
        dsimp only
        omega
      · rw [iovBytes_cons, iovBytes_cons, ih2, List.take_append_eq_append_take,
          List.length_range']
        dsimp only
        by_cases hcase : r ≤ l
        · rw [min_eq_left hcase, take_range' b l r hcase,
            Nat.sub_eq_zero_of_le hcase, Nat.sub_self]
        · push_neg at hcase
          rw [min_eq_right (le_of_lt hcase),
            List.take_of_length_le
              (show (List.range' b l).length ≤ r from by
                rw [List.length_range']; omega)]

theorem le_iovCountLoop :
    ∀ (rest : List (Nat × Nat)) (r i : Nat), i ≤ iovCountLoop rest r i := by
  intro rest
  induction rest with
  | nil => intro r i; simp [iovCountLoop]
  | cons s rest ih =>
    intro r i
    obtain ⟨b, l⟩ := s
    rw [iovCountLoop]
    by_cases hr : r = 0
    · simp [hr]
    · rw [if_neg hr]
      exact le_trans (by omega) (ih (r - min r l) (i + 1))

theorem iovTranslateLoop_eq_all :
    ∀ (rest : List (Nat × Nat)) (r i : Nat),
      iovTranslateLoop rest r (iovCountLoop rest r i - i) =
        iovTranslateAll rest r := by
  intro rest
  induction rest with
  | nil => intro r i; simp [iovTranslateLoop, iovTranslateAll]
  | cons s rest ih =>
    intro r i
    obtain ⟨b, l⟩ := s
    rw [iovTranslateLoop, iovTranslateAll, iovCountLoop]
    by_cases hr : r = 0
    · simp [hr]
    · have hgt := le_iovCountLoop rest (r - min r l) (i + 1)
      rw [if_neg hr, if_neg hr, if_neg (by push_neg; exact ⟨hr, by omega⟩)]
      congr 1
      rw [Nat.sub_sub]
      exact ih (r - min r l) (i + 1)

theorem iovTranslateLoop_zero (rest : List (Nat × Nat)) (k : Nat) :
    iovTranslateLoop rest 0 k = [] := by
  cases rest with
  | nil => rfl
  | cons s rest =>
    obtain ⟨b, l⟩ := s
    rw [iovTranslateLoop, if_pos (Or.inl rfl)]

/-- C4: for every memory handle whose (base, length) segment list covers at
least `offset + len` bytes, the translation performed for put/get
(`na_sm_iov_get_index_offset` to find the starting segment and the offset
within it, `na_sm_iov_get_count` to count segments, `na_sm_iov_translate`
to emit them; composed as `iovTranslatePath`) produces an ordered segment
list whose lengths sum to exactly `len` and whose concatenated byte
addresses equal the byte range [offset, offset + len) of the concatenated
original segments. -/
theorem na_sm_iov_translation_exact (iov : List (Nat × Nat)) (offset len : Nat)
    (hcov : offset + len ≤ iovLen iov) :
    iovLen (iovTranslatePath iov offset len) = len ∧
      iovBytes (iovTranslatePath iov offset len) =
        ((iovBytes iov).drop offset).take len := by
  by_cases hlen : len = 0
  · subst hlen
    constructor
    · simp [iovTranslatePath, na_sm_iov_translate, iovTranslateLoop_zero, iovLen]
    · simp [iovTranslatePath, na_sm_iov_translate, iovTranslateLoop_zero,
        iovBytes]
  · have hofflt : offset < iovLen iov := by omega
    obtain ⟨si, hsi, heq, hple, hplt⟩ :=
      na_sm_iov_get_index_offset_spec iov offset hofflt
    have hgetD : iov.getD si (0, 0) = iov[si] := getD_of_lt (0, 0) hsi
    have hsplit : iov = iov.take si ++ (iov.getD si (0, 0) :: iov.drop (si + 1)) := by
      conv_lhs => rw [← List.take_append_drop si iov]
      rw [List.drop_eq_getElem_cons hsi, hgetD]
    have hsplitLen : iovLen iov =
        iovLen (iov.take si) + (iov.getD si (0, 0)).2 + iovLen (iov.drop (si + 1)) := by
      conv_lhs => rw [hsplit]
      rw [iovLen_append, iovLen_cons]
      omega
    have hso_lt : offset - iovLen (iov.take si) < (iov.getD si (0, 0)).2 := by
      omega
    have hr'le : len - min len ((iov.getD si (0, 0)).2 - (offset - iovLen (iov.take si))) ≤
        iovLen (iov.drop (si + 1)) := by
      omega
    have hpath : iovTranslatePath iov offset len =
        ((iov.getD si (0, 0)).1 + (offset - iovLen (iov.take si)),
          min len ((iov.getD si (0, 0)).2 - (offset - iovLen (iov.take si)))) ::
          iovTranslateAll (iov.drop (si + 1))
            (len - min len ((iov.getD si (0, 0)).2 - (offset - iovLen (iov.take si)))) := by
      simp only [iovTranslatePath, heq, na_sm_iov_translate, na_sm_iov_get_count]
      rw [iovTranslateLoop_eq_all]
    obtain ⟨hsum, hbytes⟩ := iovTranslateAll_spec (iov.drop (si + 1))
      (len - min len ((iov.getD si (0, 0)).2 - (offset - iovLen (iov.take si)))) hr'le
    constructor
    · rw [hpath, iovLen_cons, hsum]
      dsimp only
      omega
    · rw [hpath, iovBytes_cons, hbytes]
      dsimp only
      conv_rhs => rw [hsplit]
      rw [iovBytes_append, iovBytes_cons,
        List.drop_append_eq_append_drop,
        List.drop_eq_nil_of_le
          (show (iovBytes (List.take si iov)).length ≤ offset from by
            rw [length_iovBytes]; exact hple),
        List.nil_append, length_iovBytes (List.take si iov),
        ← range'_split (iov.getD si (0, 0)).1 (offset - iovLen (List.take si iov))
          (iov.getD si (0, 0)).2 (le_of_lt hso_lt),
        List.append_assoc,
        List.drop_append_eq_append_drop,
        List.drop_eq_nil_of_le
          (show (List.range' (iov.getD si (0, 0)).1
              (offset - iovLen (List.take si iov))).length ≤
              offset - iovLen (List.take si iov) from by
            rw [List.length_range']),
        List.nil_append, List.length_range', Nat.sub_self, List.drop_zero,
        List.take_append_eq_append_take, List.length_range']
      by_cases hc : len ≤ (iov.getD si (0, 0)).2 - (offset - iovLen (List.take si iov))
      · rw [min_eq_left hc,
          take_range' ((iov.getD si (0, 0)).1 + (offset - iovLen (List.take si iov)))
            ((iov.getD si (0, 0)).2 - (offset - iovLen (List.take si iov))) len hc,
          Nat.sub_eq_zero_of_le hc, Nat.sub_self]
      · push_neg at hc
        rw [min_eq_right (le_of_lt hc),
          List.take_of_length_le
            (show (List.range'
                ((iov.getD si (0, 0)).1 + (offset - iovLen (List.take si iov)))
                ((iov.getD si (0, 0)).2 - (offset - iovLen (List.take si iov)))).length ≤
                len from by
              rw [List.length_range']; omega)]

/-- Witness for C4: a two-segment handle, offset 1, length 3. -/
theorem na_sm_iov_translation_exact_witness :
    iovLen (iovTranslatePath [(100, 2), (200, 3)] 1 3) = 3 ∧
      iovBytes (iovTranslatePath [(100, 2), (200, 3)] 1 3) =
        ((iovBytes [(100, 2), (200, 3)]).drop 1).take 3 :=
  na_sm_iov_translation_exact [(100, 2), (200, 3)] 1 3 (by decide)

/-- C5: a put whose remote memory handle is read-only, and a get whose remote
handle is write-only, fail with `NA_PERMISSION` before any cross-process
transfer is attempted, and an unrecognized access flag fails with
`NA_INVALID_ARG`; in each case the operation state and the transferred
memory records are left completely unchanged. -/
theorem put_get_access_flag_checks :
    (∀ lh rh loff roff len s, rh.flags = NA_MEM_READ_ONLY →
      na_sm_put lh rh loff roff len s = (NaReturn.NA_PERMISSION, s)) ∧
    (∀ lh rh loff roff len s, rh.flags = NA_MEM_WRITE_ONLY →
      na_sm_get lh rh loff roff len s = (NaReturn.NA_PERMISSION, s)) ∧
    (∀ lh rh loff roff len s, rh.flags ≠ NA_MEM_READ_ONLY →
      rh.flags ≠ NA_MEM_WRITE_ONLY → rh.flags ≠ NA_MEM_READWRITE →
      na_sm_put lh rh loff roff len s = (NaReturn.NA_INVALID_ARG, s) ∧
      na_sm_get lh rh loff roff len s = (NaReturn.NA_INVALID_ARG, s)) := by
  refine ⟨?_, ?_, ?_⟩
  · intro lh rh loff roff len s h
    rw [na_sm_put, if_pos h]
  · intro lh rh loff roff len s h
    rw [na_sm_get, if_pos h]
  · intro lh rh loff roff len s h1 h2 h3
    constructor
    · rw [na_sm_put, if_neg h1, if_neg (by push_neg; exact ⟨h2, h3⟩)]
    · rw [na_sm_get, if_neg h2, if_neg (by push_neg; exact ⟨h1, h3⟩)]

/-- Witness for C5 at concrete handles: a read-only remote handle rejects the
put, a write-only one rejects the get, and flag value 7 is invalid. -/
theorem put_get_access_flag_checks_witness :
    na_sm_put ⟨[(0, 8)], 1, NA_MEM_READWRITE, 8⟩ ⟨[(50, 8)], 1, NA_MEM_READ_ONLY, 8⟩
        0 0 8 ⟨⟨1, 1, NaCbType.NA_CB_PUT, none⟩, 0, false, [], []⟩ =
      (NaReturn.NA_PERMISSION, ⟨⟨1, 1, NaCbType.NA_CB_PUT, none⟩, 0, false, [], []⟩) ∧
    na_sm_get ⟨[(0, 8)], 1, NA_MEM_READWRITE, 8⟩ ⟨[(50, 8)], 1, NA_MEM_WRITE_ONLY, 8⟩
        0 0 8 ⟨⟨1, 1, NaCbType.NA_CB_GET, none⟩, 0, false, [], []⟩ =
      (NaReturn.NA_PERMISSION, ⟨⟨1, 1, NaCbType.NA_CB_GET, none⟩, 0, false, [], []⟩) ∧
    na_sm_put ⟨[(0, 8)], 1, NA_MEM_READWRITE, 8⟩ ⟨[(50, 8)], 1, 7, 8⟩
        0 0 8 ⟨⟨1, 1, NaCbType.NA_CB_PUT, none⟩, 0, false, [], []⟩ =
      (NaReturn.NA_INVALID_ARG, ⟨⟨1, 1, NaCbType.NA_CB_PUT, none⟩, 0, false, [], []⟩) :=
  ⟨put_get_access_flag_checks.1 _ _ 0 0 8 _ rfl,
   put_get_access_flag_checks.2.1 _ _ 0 0 8 _ rfl,
   (put_get_access_flag_checks.2.2 _ _ 0 0 8 _ (by decide) (by decide) (by decide)).1⟩

theorem decodeSegs_map (segs : List (Nat × Nat)) :
    decodeSegs segs.length (segs.map fun s => WireField.seg s.1 s.2) = some segs := by
  induction segs with
  | nil => rfl
  | cons s rest ih =>
    obtain ⟨b, l⟩ := s
    simp [decodeSegs, ih]

/-- C6: serializing a memory handle with K segments into a sufficiently large
buffer and deserializing the result reproduces the same segment count, the
same K (base, length) pairs in the same order, the same access flags and
the same total length. -/
theorem mem_handle_serialize_roundtrip (h : MemHandle) (bufSize : Nat)
    (hcnt : h.iovcnt = h.iov.length)
    (hbuf : sizeofMemDescInfo + h.iovcnt * sizeofIovec ≤ bufSize) :
    ∃ w, na_sm_mem_handle_serialize h bufSize = Except.ok w ∧
      na_sm_mem_handle_deserialize w bufSize = Except.ok h := by
  refine ⟨WireField.info h.iovcnt h.len h.flags ::
    (h.iov.take h.iovcnt).map fun s => WireField.seg s.1 s.2, ?_, ?_⟩
  · rw [na_sm_mem_handle_serialize, if_neg (by omega), if_neg (by omega)]
  · rw [na_sm_mem_handle_deserialize, if_neg (by omega)]
    have htake : h.iov.take h.iovcnt = h.iov := by
      rw [hcnt]
      exact List.take_of_length_le (Nat.le_refl _)
    rw [htake]
    have hlen2 : h.iovcnt = h.iov.length := hcnt
    rw [if_neg (by omega)]
    rw [show decodeSegs h.iovcnt (h.iov.map fun s => WireField.seg s.1 s.2) =
        some h.iov from by rw [hlen2]; exact decodeSegs_map h.iov]

/-- Witness for C6 at a concrete two-segment handle. -/
theorem mem_handle_serialize_roundtrip_witness :
    ∃ w, na_sm_mem_handle_serialize ⟨[(10, 4), (20, 6)], 2, NA_MEM_READWRITE, 10⟩ 64 =
        Except.ok w ∧
      na_sm_mem_handle_deserialize w 64 =
        Except.ok ⟨[(10, 4), (20, 6)], 2, NA_MEM_READWRITE, 10⟩ :=
  mem_handle_serialize_roundtrip ⟨[(10, 4), (20, 6)], 2, NA_MEM_READWRITE, 10⟩ 64
    (by decide) (by decide)

theorem or_and_eq_of_disjoint (x a b : Nat) (h : a &&& b = 0) :
    (x ||| a) &&& b = x &&& b := by
  apply Nat.eq_of_testBit_eq
  intro j
  have hj := congrArg (fun y => y.testBit j) h
  simp only [Nat.testBit_and, Nat.zero_testBit] at hj
  rw [Nat.testBit_and, Nat.testBit_and, Nat.testBit_or]
  cases hA : a.testBit j <;> cases hB : b.testBit j <;> simp_all

theorem and_and_eq_of_sub (x a b : Nat) (h : a &&& b = b) :
    (x &&& a) &&& b = x &&& b := by
  apply Nat.eq_of_testBit_eq
  intro j
  have hj := congrArg (fun y => y.testBit j) h
  simp only [Nat.testBit_and] at hj
  rw [Nat.testBit_and, Nat.testBit_and, Nat.testBit_and]
  cases hA : a.testBit j <;> cases hB : b.testBit j <;> simp_all

theorem or_two_pow_and_ne_zero (x i : Nat) : (x ||| 2 ^ i) &&& 2 ^ i ≠ 0 := by
  rw [Ne, and_two_pow_eq_zero_iff, Nat.testBit_or, Nat.testBit_two_pow_self]
  simp

theorem or_and_self (x b : Nat) : (x ||| b) &&& b = b := by
  apply Nat.eq_of_testBit_eq
  intro j
  rw [Nat.testBit_and, Nat.testBit_or]
  cases hx : x.testBit j <;> cases hb : b.testBit j <;> simp

theorem resolveAfterPush_inv (pollMode : Bool) (env : ResolveEnv)
    (s : ResolveState)
    (hp : s.addr.pushes =
      if s.addr.status &&& NA_SM_ADDR_CMD_PUSHED ≠ 0 then 1 else 0)
    (hres : s.addr.status &&& NA_SM_ADDR_RESOLVED = 0)
    (hsend : s.addr.sends = 0) :
    ResolveInv pollMode (resolveAfterPush pollMode env s).2 := by
  have hA : (s.addr.status ||| NA_SM_ADDR_RESOLVED) &&& NA_SM_ADDR_CMD_PUSHED =
      s.addr.status &&& NA_SM_ADDR_CMD_PUSHED :=
    or_and_eq_of_disjoint _ _ _ (by decide)
  have hB : (s.addr.status ||| NA_SM_ADDR_RESOLVED) &&& NA_SM_ADDR_RESOLVED ≠ 0 := by
    rw [or_and_self]
    decide
  cases pollMode with
  | false =>
    simp only [resolveAfterPush, finishResolve, ResolveInv]
    simp [hA, hp, hsend]
  | true =>
    cases hsok : env.sendOk with
    | true =>
      simp only [resolveAfterPush, finishResolve, ResolveInv, hsok]
      simp [hres, hA, hB, hp, hsend]
    | false =>
      simp only [resolveAfterPush, finishResolve, ResolveInv, hsok]
      simp [hres, hA, hB, hp, hsend]

theorem resolveAfterReserve_inv (pollMode : Bool) (env : ResolveEnv)
    (s : ResolveState)
    (hp : s.addr.pushes =
      if s.addr.status &&& NA_SM_ADDR_CMD_PUSHED ≠ 0 then 1 else 0)
    (hres : s.addr.status &&& NA_SM_ADDR_RESOLVED = 0)
    (hsend : s.addr.sends = 0) :
    ResolveInv pollMode (resolveAfterReserve pollMode env s).2 := by
  rw [resolveAfterReserve]
  by_cases hcp : s.addr.status &&& NA_SM_ADDR_CMD_PUSHED = 0
  · rw [if_pos hcp]
    cases hok : env.cmdPushOk with
    | true =>
      simp only
      apply resolveAfterPush_inv
      · have hne : (s.addr.status ||| NA_SM_ADDR_CMD_PUSHED) &&&
            NA_SM_ADDR_CMD_PUSHED ≠ 0 := by
          rw [or_and_self]
          decide
        simp [hne, hp, hcp]
      · have hd : (s.addr.status ||| NA_SM_ADDR_CMD_PUSHED) &&& NA_SM_ADDR_RESOLVED =
            s.addr.status &&& NA_SM_ADDR_RESOLVED :=
          or_and_eq_of_disjoint _ _ _ (by decide)
        simpa [hd] using hres
      · simpa using hsend
    | false =>
      simp only [Bool.false_eq_true, if_false]
      rw [resolveErrorUnwind, ResolveInv]
      by_cases hrv : s.addr.status &&& NA_SM_ADDR_RESERVED ≠ 0
      · rw [if_pos hrv]
        have hm2 : (clearStatusBit s.addr.status NA_SM_ADDR_RESERVED) &&&
            NA_SM_ADDR_CMD_PUSHED = s.addr.status &&& NA_SM_ADDR_CMD_PUSHED := by
          rw [clearStatusBit]
          exact and_and_eq_of_sub _ _ _ (by decide)
        have hm4 : (clearStatusBit s.addr.status NA_SM_ADDR_RESERVED) &&&
            NA_SM_ADDR_RESOLVED = s.addr.status &&& NA_SM_ADDR_RESOLVED := by
          rw [clearStatusBit]
          exact and_and_eq_of_sub _ _ _ (by decide)
        simp [hm2, hm4, hcp, hp, hres, hsend]
      · rw [if_neg hrv]
        simp [hp, hres, hsend]
  · rw [if_neg hcp]
    exact resolveAfterPush_inv pollMode env s hp hres hsend

theorem na_sm_addr_resolve_inv (pollMode : Bool) (env : ResolveEnv)
    (s : ResolveState) (h : ResolveInv pollMode s)
    (hres : s.addr.status &&& NA_SM_ADDR_RESOLVED = 0) :
    ResolveInv pollMode (na_sm_addr_resolve pollMode env s).2 := by
  obtain ⟨hp, hs⟩ := h
  have hsend : s.addr.sends = 0 := by
    rw [hs, if_neg (by simp [hres])]
  have hd12 : ∀ x : Nat, (x ||| NA_SM_ADDR_RESERVED) &&& NA_SM_ADDR_CMD_PUSHED =
      x &&& NA_SM_ADDR_CMD_PUSHED := fun x =>
    or_and_eq_of_disjoint _ _ _ (by decide)
  have hd14 : ∀ x : Nat, (x ||| NA_SM_ADDR_RESERVED) &&& NA_SM_ADDR_RESOLVED =
      x &&& NA_SM_ADDR_RESOLVED := fun x =>
    or_and_eq_of_disjoint _ _ _ (by decide)
  rw [na_sm_addr_resolve]
  by_cases hro : s.addr.regionOpen <;>
    simp only [hro, if_pos, if_neg, if_true, Bool.false_eq_true, if_false] <;>
    by_cases hrv : s.addr.status &&& NA_SM_ADDR_RESERVED = 0
  · rw [if_pos (by simpa using hrv)]
    rcases hq : na_sm_queue_pair_reserve s.regionWords with _ | p
    · rw [resolveErrorUnwind]
      rw [if_neg (by simpa using hrv)]
      exact ⟨by simpa using hp, by simp [hres, hsend]⟩
    · obtain ⟨idx, words'⟩ := p
      apply resolveAfterReserve_inv
      · simpa [hd12] using hp
      · simpa [hd14] using hres
      · simpa using hsend
  · rw [if_neg (by simpa using hrv)]
    exact resolveAfterReserve_inv pollMode env _ (by simpa using hp)
      (by simpa using hres) (by simpa using hsend)
  · rw [if_pos (by simpa using hrv)]
    rcases hq : na_sm_queue_pair_reserve s.regionWords with _ | p
    · rw [resolveErrorUnwind]
      rw [if_neg (by simpa using hrv)]
      exact ⟨by simpa using hp, by simp [hres, hsend]⟩
    · obtain ⟨idx, words'⟩ := p
      apply resolveAfterReserve_inv
      · simpa [hd12] using hp
      · simpa [hd14] using hres
      · simpa using hsend
  · rw [if_neg (by simpa using hrv)]
    exact resolveAfterReserve_inv pollMode env _ (by simpa using hp)
      (by simpa using hres) (by simpa using hsend)

theorem resolveStep_inv (pollMode : Bool) (env : ResolveEnv) (s : ResolveState)
    (h : ResolveInv pollMode s) :
    ResolveInv pollMode (resolveIfUnresolved pollMode env s).2.1 := by
  rw [resolveIfUnresolved]
  by_cases hres : s.addr.status &&& NA_SM_ADDR_RESOLVED ≠ 0
  · rw [if_pos hres]
    exact h
  · rw [if_neg hres]
    push_neg at hres
    exact na_sm_addr_resolve_inv pollMode env s h hres

theorem execResolveTrace_inv (pollMode : Bool) (envs : List ResolveEnv)
    (s : ResolveState) (h : ResolveInv pollMode s) :
    ResolveInv pollMode (execResolveTrace pollMode envs s) := by
  induction envs generalizing s with
  | nil => exact h
  | cons env rest ih => exact ih _ (resolveStep_inv pollMode env s h)

/-- C7: address resolution is idempotent.  The guard shared by the send path
and the retry path does not re-enter `na_sm_addr_resolve` on an address
whose `NA_SM_ADDR_RESOLVED` bit is set; re-entering resolution on an
address whose `NA_SM_ADDR_RESERVED` and `NA_SM_ADDR_CMD_PUSHED` bits are
set reserves no second queue pair and pushes no second `RESERVED` command
(the reservation and push counters and the region bitmask are unchanged);
and along every sequence of guarded resolution attempts from a fresh
address, at most one command push and at most one successful handshake send
ever occur. -/
theorem addr_resolution_idempotent :
    (∀ pollMode env s, s.addr.status &&& NA_SM_ADDR_RESOLVED ≠ 0 →
      resolveIfUnresolved pollMode env s = (NaReturn.NA_SUCCESS, s, false)) ∧
    (∀ pollMode env s, s.addr.status &&& NA_SM_ADDR_RESERVED ≠ 0 →
      s.addr.status &&& NA_SM_ADDR_CMD_PUSHED ≠ 0 →
      (na_sm_addr_resolve pollMode env s).2.addr.reserves = s.addr.reserves ∧
      (na_sm_addr_resolve pollMode env s).2.addr.pushes = s.addr.pushes ∧
      (na_sm_addr_resolve pollMode env s).2.regionWords = s.regionWords) ∧
    (∀ pollMode envs words,
      (execResolveTrace pollMode envs (freshResolveState words)).addr.pushes ≤ 1 ∧
      (execResolveTrace pollMode envs (freshResolveState words)).addr.sends ≤ 1) := by
  refine ⟨?_, ?_, ?_⟩
  · intro pollMode env s h
    rw [resolveIfUnresolved, if_pos h]
  · intro pollMode env s hrv hcp
    rw [na_sm_addr_resolve]
    by_cases hro : s.addr.regionOpen <;>
      simp only [hro, if_true, Bool.false_eq_true, if_false] <;>
      rw [if_neg (by simpa using hrv), resolveAfterReserve] <;>
      rw [if_neg (by simpa using hcp), resolveAfterPush] <;>
      cases pollMode <;>
        simp only [finishResolve, Bool.false_eq_true, if_false, if_true] <;>
        first
          | (split_ifs <;> simp)
          | simp
  · intro pollMode envs words
    obtain ⟨h1, h2⟩ := execResolveTrace_inv pollMode envs (freshResolveState words)
      ⟨by simp [freshResolveState], by simp [freshResolveState]⟩
    constructor
    · rw [h1]
      split <;> omega
    · rw [h2]
      split <;> omega

/-- Witness for C7: resolving an already-resolved address is skipped, and
re-entry with RESERVED and CMD_PUSHED set performs no further reservation
or push. -/
theorem addr_resolution_idempotent_witness :
    resolveIfUnresolved false ⟨true, true⟩ ⟨⟨4, true, 0, true, true, true, 1, 1, 0⟩, [17]⟩ =
      (NaReturn.NA_SUCCESS, ⟨⟨4, true, 0, true, true, true, 1, 1, 0⟩, [17]⟩, false) ∧
    (na_sm_addr_resolve true ⟨true, true⟩
        ⟨⟨3, true, 5, true, true, false, 1, 1, 0⟩, [17]⟩).2.regionWords =
      (⟨⟨3, true, 5, true, true, false, 1, 1, 0⟩, [17]⟩ : ResolveState).regionWords :=
  ⟨addr_resolution_idempotent.1 false ⟨true, true⟩
      ⟨⟨4, true, 0, true, true, true, 1, 1, 0⟩, [17]⟩ (by decide),
   (addr_resolution_idempotent.2.1 true ⟨true, true⟩
      ⟨⟨3, true, 5, true, true, false, 1, 1, 0⟩, [17]⟩ (by decide) (by decide)).2.2⟩

theorem na_sm_buf_reserve_zero : na_sm_buf_reserve 0 = none := by
  rw [na_sm_buf_reserve, bufScanLoop_zero]

/-- C8: `na_sm_process_retries` (invoked by every `na_sm_progress` iteration)
retries operations starting at the head of the retry queue; as soon as the
head operation's address resolution or copy-buffer reservation returns the
retryable `NA_AGAIN` condition, it stops the entire drain and returns
`NA_SUCCESS`, leaving that operation and all operations behind it still
queued in order; in general the queue left behind is always a suffix of
the original queue. -/
theorem process_retries_stops_at_head :
    (∀ (env : RetryEnv) (fuel : Nat) (s : RetryState) (op : ROp) rest,
      s.queue = op :: rest →
      op.addrStatus &&& NA_SM_ADDR_RESOLVED = 0 → env.resolveAgain op.id = true →
      na_sm_process_retries env (fuel + 1) s = (NaReturn.NA_SUCCESS, s)) ∧
    (∀ (env : RetryEnv) (fuel : Nat) (s : RetryState) (op : ROp) rest,
      s.queue = op :: rest → s.bufMask = 0 →
      (na_sm_process_retries env (fuel + 1) s).1 = NaReturn.NA_SUCCESS ∧
      (na_sm_process_retries env (fuel + 1) s).2.queue.map ROp.id =
        s.queue.map ROp.id ∧
      (na_sm_process_retries env (fuel + 1) s).2.bufMask = s.bufMask ∧
      (na_sm_process_retries env (fuel + 1) s).2.completions = s.completions) ∧
    (∀ (env : RetryEnv) (fuel : Nat) (s : RetryState),
      List.IsSuffix ((na_sm_process_retries env fuel s).2.queue.map ROp.id)
        (s.queue.map ROp.id)) := by
  refine ⟨?_, ?_, ?_⟩
  · intro env fuel s op rest h1 h2 h3
    simp [na_sm_process_retries, h1, h2, h3]
  · intro env fuel s op rest h1 h2
    have hres0 : na_sm_buf_reserve s.bufMask = none := by
      rw [h2, na_sm_buf_reserve_zero]
    by_cases hra : op.addrStatus &&& NA_SM_ADDR_RESOLVED = 0 ∧
        env.resolveAgain op.id = true
    · simp [na_sm_process_retries, h1, hra]
    · by_cases hrv : op.addrStatus &&& NA_SM_ADDR_RESOLVED = 0
      · have hb : ¬(env.resolveAgain op.id = true) := fun hb => hra ⟨hrv, hb⟩
        simp [na_sm_process_retries, h1, hres0, hrv, hb]
      · simp [na_sm_process_retries, h1, hres0, hrv]
  · intro env fuel
    induction fuel with
    | zero =>
      intro s
      simp [na_sm_process_retries]
    | succ fuel ih =>
      intro s
      rcases hq : s.queue with _ | ⟨op, rest⟩
      · simp [na_sm_process_retries, hq]
      · by_cases hra : op.addrStatus &&& NA_SM_ADDR_RESOLVED = 0 ∧
            env.resolveAgain op.id = true
        · simp [na_sm_process_retries, hq, hra]
        · rcases hbr : na_sm_buf_reserve s.bufMask with _ | p
          · by_cases hrv : op.addrStatus &&& NA_SM_ADDR_RESOLVED = 0
            · have hb : ¬(env.resolveAgain op.id = true) := fun hb => hra ⟨hrv, hb⟩
              simp [na_sm_process_retries, hq, hbr, hrv, hb]
            · simp [na_sm_process_retries, hq, hra, hbr, hrv]
          · obtain ⟨bufIdx, mask'⟩ := p
            by_cases hrv : op.addrStatus &&& NA_SM_ADDR_RESOLVED = 0
            · have hb : ¬(env.resolveAgain op.id = true) := fun hb => hra ⟨hrv, hb⟩
              by_cases hcanc : op.status &&& NA_SM_OP_CANCELED = 0 <;>
              by_cases htx : env.txFull op.id = true <;>
                simp [na_sm_process_retries, hq, hbr, hrv, hcanc, htx, hb] <;>
                first
                  | (exact List.IsSuffix.trans (by simpa using ih _) (by simp))
                  | simpa using ih _
                  | simp
            · by_cases hcanc : op.status &&& NA_SM_OP_CANCELED = 0 <;>
              by_cases htx : env.txFull op.id = true <;>
                simp [na_sm_process_retries, hq, hra, hbr, hrv, hcanc, htx] <;>
                first
                  | (exact List.IsSuffix.trans (by simpa using ih _) (by simp))
                  | simpa using ih _
                  | simp

/-- Witness for C8: a single unresolved op whose resolution returns the
retryable condition; the drain stops immediately, leaving the op queued. -/
theorem process_retries_stops_at_head_witness :
    na_sm_process_retries ⟨fun _ => true, fun _ => false⟩ 1
        ⟨[⟨1, 0, 0⟩], 5, []⟩ =
      (NaReturn.NA_SUCCESS, ⟨[⟨1, 0, 0⟩], 5, []⟩) :=
  process_retries_stops_at_head.1 ⟨fun _ => true, fun _ => false⟩ 0
    ⟨[⟨1, 0, 0⟩], 5, []⟩ ⟨1, 0, 0⟩ [] rfl (by decide) rfl

theorem process_retries_ok_of_no_txFull (env : RetryEnv)
    (htx : ∀ i, env.txFull i = false) :
    ∀ (fuel : Nat) (s : RetryState),
      (na_sm_process_retries env fuel s).1 = NaReturn.NA_SUCCESS := by
  intro fuel
  induction fuel with
  | zero =>
    intro s
    rfl
  | succ fuel ih =>
    intro s
    rcases hq : s.queue with _ | ⟨op, rest⟩
    · simp [na_sm_process_retries, hq]
    · by_cases hra : op.addrStatus &&& NA_SM_ADDR_RESOLVED = 0 ∧
          env.resolveAgain op.id = true
      · simp [na_sm_process_retries, hq, hra]
      · rcases hbr : na_sm_buf_reserve s.bufMask with _ | p
        · by_cases hrv : op.addrStatus &&& NA_SM_ADDR_RESOLVED = 0 <;>
          by_cases hbA : env.resolveAgain op.id = true <;>
            simp [na_sm_process_retries, hq, hbA, hbr, hrv]
        · obtain ⟨bufIdx, mask'⟩ := p
          by_cases hrv : op.addrStatus &&& NA_SM_ADDR_RESOLVED = 0 <;>
          by_cases hbA : env.resolveAgain op.id = true <;>
          by_cases hcanc : op.status &&& NA_SM_OP_CANCELED = 0 <;>
            simp [na_sm_process_retries, hq, hbA, hbr, hrv, hcanc, htx, ih]

theorem progress_no_progress_to_timeout (env : RetryEnv) (timeout : Nat)
    (htimeout : timeout ≠ 0) (htx : ∀ i, env.txFull i = false) :
    ∀ (polls : List (Bool × Nat)) (remaining : Int) (rs : RetryState),
      0 < remaining →
      remaining ≤ (polls.map fun p => (p.2 : Int)).sum →
      (∀ p ∈ polls, p.1 = false) →
      ∃ rs', na_sm_progress env timeout polls remaining rs =
        some (NaReturn.NA_TIMEOUT, rs') := by
  intro polls
  induction polls with
  | nil =>
    intro remaining rs h1 h2 _
    simp at h2
    omega
  | cons p rest ih =>
    intro remaining rs h1 h2 hnp
    obtain ⟨pr, e⟩ := p
    have hpr : pr = false := hnp (pr, e) (by simp)
    subst hpr
    rw [na_sm_progress]
    rw [if_neg (by simp [process_retries_ok_of_no_txFull env htx])]
    simp only [Bool.false_eq_true, if_false]
    rw [if_pos htimeout]
    by_cases hrem : remaining - (e : Int) > 0
    · rw [if_pos hrem]
      apply ih
      · exact hrem
      · simp only [List.map_cons, List.sum_cons] at h2
        omega
      · intro q hq
        exact hnp q (by simp [hq])
    · rw [if_neg hrem]
      exact ⟨_, rfl⟩

theorem progress_progressed_success (env : RetryEnv) (timeout : Nat)
    (htimeout : timeout ≠ 0) (htx : ∀ i, env.txFull i = false) (e : Nat)
    (post : List (Bool × Nat)) :
    ∀ (pre : List (Bool × Nat)) (remaining : Int) (rs : RetryState),
      (∀ p ∈ pre, p.1 = false) →
      (pre.map fun p => (p.2 : Int)).sum < remaining →
      ∃ rs', na_sm_progress env timeout (pre ++ (true, e) :: post) remaining rs =
        some (NaReturn.NA_SUCCESS, rs') := by
  intro pre
  induction pre with
  | nil =>
    intro remaining rs _ _
    simp only [List.nil_append]
    rw [na_sm_progress]
    rw [if_neg (by simp [process_retries_ok_of_no_txFull env htx])]
    exact ⟨_, rfl⟩
  | cons p pre' ih =>
    intro remaining rs hnp hrem
    obtain ⟨pr, e'⟩ := p
    have hpr : pr = false := hnp (pr, e') (by simp)
    subst hpr
    simp only [List.cons_append]
    rw [na_sm_progress]
    rw [if_neg (by simp [process_retries_ok_of_no_txFull env htx])]
    simp only [Bool.false_eq_true, if_false]
    rw [if_pos htimeout]
    simp only [List.map_cons, List.sum_cons] at hrem
    have hpos : remaining - (e' : Int) > 0 := by
      have hsum : (0 : Int) ≤ (pre'.map fun p => (p.2 : Int)).sum := by
        apply List.sum_nonneg
        intro x hx
        simp only [List.mem_map] at hx
        obtain ⟨q, -, rfl⟩ := hx
        exact Int.ofNat_nonneg _
      omega
    rw [if_pos hpos]
    apply ih
    · intro q hq
      exact hnp q (by simp [hq])
    · omega

/-- C9: a call to `na_sm_progress` with a nonzero timeout in which no polling
step reports progress and no error occurs loops, re-polling with the
remaining time budget, until the budget is exhausted, and then returns the
distinguished `NA_TIMEOUT` code (not an error); if any iteration reports
progress the call returns `NA_SUCCESS` immediately. -/
theorem na_sm_progress_timeout_behavior :
    (∀ (env : RetryEnv) (timeout : Nat) polls (rs : RetryState),
      timeout ≠ 0 → (∀ i, env.txFull i = false) →
      (∀ p ∈ polls, p.1 = false) →
      (timeout : Int) ≤ (polls.map fun p => (p.2 : Int)).sum →
      ∃ rs', na_sm_progress_call env timeout polls rs =
        some (NaReturn.NA_TIMEOUT, rs')) ∧
    (∀ (env : RetryEnv) (timeout : Nat) pre (e : Nat) post (rs : RetryState),
      timeout ≠ 0 → (∀ i, env.txFull i = false) →
      (∀ p ∈ pre, p.1 = false) →
      (pre.map fun p => (p.2 : Int)).sum < (timeout : Int) →
      ∃ rs', na_sm_progress_call env timeout (pre ++ (true, e) :: post) rs =
        some (NaReturn.NA_SUCCESS, rs')) := by
  constructor
  · intro env timeout polls rs h1 h2 h3 h4
    exact progress_no_progress_to_timeout env timeout h1 h2 polls (timeout : Int) rs
      (by exact_mod_cast Nat.pos_of_ne_zero h1) h4 h3
  · intro env timeout pre e post rs h1 h2 h3 h4
    exact progress_progressed_success env timeout h1 h2 e post pre (timeout : Int)
      rs h3 h4

/-- Witness for C9: two fruitless 3 ms polls exhaust a 5 ms budget and yield
a timeout; an immediately progressing poll returns success. -/
theorem na_sm_progress_timeout_behavior_witness :
    (∃ rs', na_sm_progress_call ⟨fun _ => false, fun _ => false⟩ 5
        [(false, 3), (false, 3)] ⟨[], 7, []⟩ =
      some (NaReturn.NA_TIMEOUT, rs')) ∧
    (∃ rs', na_sm_progress_call ⟨fun _ => false, fun _ => false⟩ 5
        ([] ++ (true, 1) :: []) ⟨[], 7, []⟩ =
      some (NaReturn.NA_SUCCESS, rs')) :=
  ⟨na_sm_progress_timeout_behavior.1 ⟨fun _ => false, fun _ => false⟩ 5
      [(false, 3), (false, 3)] ⟨[], 7, []⟩ (by decide) (fun _ => rfl)
      (by decide) (by decide),
   na_sm_progress_timeout_behavior.2 ⟨fun _ => false, fun _ => false⟩ 5
      [] 1 [] ⟨[], 7, []⟩ (by decide) (fun _ => rfl) (by simp) (by decide)⟩

/-- C10: at the public message interface, every send or receive call
(unexpected or expected) whose buffer size exceeds one copy buffer
(`NA_SM_COPY_BUF_SIZE`, one page) is rejected up front with the overflow
error `NA_OVERFLOW`, before the operation id is populated, before any
address reference count is incremented and before anything is queued: the
endpoint state returned is exactly the state passed in. -/
theorem msg_size_overflow_rejected (env : RetryEnv) (bufSize tag : Nat)
    (s : MsgState) (h : bufSize > NA_SM_COPY_BUF_SIZE) :
    na_sm_msg_send_unexpected env bufSize tag s = (NaReturn.NA_OVERFLOW, s) ∧
    na_sm_msg_send_expected env bufSize tag s = (NaReturn.NA_OVERFLOW, s) ∧
    na_sm_msg_recv_unexpected bufSize s = (NaReturn.NA_OVERFLOW, s) ∧
    na_sm_msg_recv_expected bufSize tag s = (NaReturn.NA_OVERFLOW, s) := by
  have hu : bufSize > NA_SM_UNEXPECTED_SIZE := h
  have he : bufSize > NA_SM_EXPECTED_SIZE := h
  refine ⟨?_, ?_, ?_, ?_⟩ <;>
    simp [na_sm_msg_send_unexpected, na_sm_msg_send_expected,
      na_sm_msg_recv_unexpected, na_sm_msg_recv_expected, msgSendBody, hu, he]

/-- Witness for C10: a 4097-byte buffer exceeds the 4096-byte copy buffer
and all four message calls reject it, leaving a concrete endpoint state
untouched. -/
theorem msg_size_overflow_rejected_witness :
    4097 > NA_SM_COPY_BUF_SIZE ∧
    (na_sm_msg_send_unexpected ⟨fun _ => false, fun _ => false⟩ 4097 9
        ⟨⟨5, 1, NaCbType.NA_CB_SEND_UNEXPECTED, none⟩, 0, 0, 0, 0, 1,
          2 ^ 64 - 1, [], [], [], [], []⟩ =
      (NaReturn.NA_OVERFLOW,
        ⟨⟨5, 1, NaCbType.NA_CB_SEND_UNEXPECTED, none⟩, 0, 0, 0, 0, 1,
          2 ^ 64 - 1, [], [], [], [], []⟩) ∧
     na_sm_msg_send_expected ⟨fun _ => false, fun _ => false⟩ 4097 9
        ⟨⟨5, 1, NaCbType.NA_CB_SEND_UNEXPECTED, none⟩, 0, 0, 0, 0, 1,
          2 ^ 64 - 1, [], [], [], [], []⟩ =
      (NaReturn.NA_OVERFLOW,
        ⟨⟨5, 1, NaCbType.NA_CB_SEND_UNEXPECTED, none⟩, 0, 0, 0, 0, 1,
          2 ^ 64 - 1, [], [], [], [], []⟩) ∧
     na_sm_msg_recv_unexpected 4097
        ⟨⟨5, 1, NaCbType.NA_CB_SEND_UNEXPECTED, none⟩, 0, 0, 0, 0, 1,
          2 ^ 64 - 1, [], [], [], [], []⟩ =
      (NaReturn.NA_OVERFLOW,
        ⟨⟨5, 1, NaCbType.NA_CB_SEND_UNEXPECTED, none⟩, 0, 0, 0, 0, 1,
          2 ^ 64 - 1, [], [], [], [], []⟩) ∧
     na_sm_msg_recv_expected 4097 9
        ⟨⟨5, 1, NaCbType.NA_CB_SEND_UNEXPECTED, none⟩, 0, 0, 0, 0, 1,
          2 ^ 64 - 1, [], [], [], [], []⟩ =
      (NaReturn.NA_OVERFLOW,
        ⟨⟨5, 1, NaCbType.NA_CB_SEND_UNEXPECTED, none⟩, 0, 0, 0, 0, 1,
          2 ^ 64 - 1, [], [], [], [], []⟩)) :=
  ⟨by decide,
   msg_size_overflow_rejected ⟨fun _ => false, fun _ => false⟩ 4097 9
     ⟨⟨5, 1, NaCbType.NA_CB_SEND_UNEXPECTED, none⟩, 0, 0, 0, 0, 1,
       2 ^ 64 - 1, [], [], [], [], []⟩ (by decide)⟩
